import Mathlib

/-! # SFS: a simple file server

A shallow embedding of the upload path of the server (`server.go`) and of the
settings record with its `Save` and `Load` (`settings.go`), followed by the
properties proved about them.

Modelling conventions.

* Go `uint64` values are natural numbers; every arithmetic operation of the
  source on them is followed by an explicit reduction modulo `2 ^ 64`.
* In `server.go` strings are only compared, joined and scanned for the ASCII
  bytes `.` and `/`; there they are Lean strings, that is Unicode text, and
  scanning characters instead of bytes gives the same result on every
  well-formed UTF-8 name.  In `settings.go` the JSON encoder looks at the bytes
  of a string; there a string is a `GoString`, which can hold bytes that are not
  part of well-formed UTF-8.
* `strings.EqualFold` is library code; the handler takes it as the parameter
  `EqualFold`.
* The operating system is a table of directories.  A directory is found by the
  elements of its path, an empty element or `.` counting for nothing (`..` and
  links are not interpreted), the entries of a directory are named objects with
  a size, and the size of an entry only changes when that entry itself is
  written.
* The files that the server holds open for logging are kept apart from the
  table, in `LogFiles`, with the number of bytes written to each; `os.ReadDir`
  lists them together with the entries of the table.  No path is at the same
  time in the table and open for logging.
* Failures of the operating system that do not follow from the table (a full
  disk, no free descriptor, a name that is taken by a directory) are inputs,
  gathered in `Faults`; a fault applies to every call of its kind in one run.
* `encoding/json` is library code.  `Marshal` writes a `Settings` record the way
  Go does; `Unmarshal` reads the documents described at its definition.
-/

namespace SFS

/-! ## Machine integers -/

/-- Conversion to a Go `uint64`. -/
def uint64 (n : Nat) : Nat := n % 2 ^ 64

/-! ## settings.go -/

/-- The record `Settings`, its strings being text. -/
structure Settings where
  FolderPath : String
  SizeLimit : Nat
  SingleFileSizeLimit : Nat
  ReadOnly : Bool
  ForbiddenExtensions : List String
deriving DecidableEq, Repr

/-- The function `DefaultSettings`. -/
def DefaultSettings : Settings :=
  { FolderPath := "./uploads"
    SizeLimit := 128
    SingleFileSizeLimit := 8
    ReadOnly := false
    ForbiddenExtensions := [".html"] }

/-! ## The file system -/

/-- One entry of a directory: its name and what `fileinfo.Size()` returns. -/
structure DirEntry where
  name : String
  size : Nat
deriving DecidableEq, Repr

/-- The directories of the file system, by path, with their entries other than
the files open for logging. -/
abbrev FileSystem := List (String × List DirEntry)

/-- The files open for logging, by path, with the bytes each one holds. -/
abbrev LogFiles := List (String × Nat)

/-- Failures injected by the environment; `none` means the call is not disturbed. -/
structure Faults where
  /-- The call `os.Create` fails with this error. -/
  create : Option String
  /-- The call `io.Copy` fails with this error after writing that many bytes. -/
  copy : Option (Nat × String)
  /-- The call `os.ReadDir` fails with this error. -/
  readDir : Option String
  /-- The call `file.Info()` fails with this error. -/
  info : Option String
  /-- The call `os.Mkdir` fails with this error. -/
  mkdir : Option String
  /-- The call `fmt.Fprintln` on a log file fails with this error. -/
  logWrite : Option String
deriving DecidableEq, Repr

/-- No injected failure. -/
def noFaults : Faults := ⟨none, none, none, none, none, none⟩

/-- The elements of a slash-separated path. -/
def splitSlash : List Char → List (List Char)
  | [] => [[]]
  | c :: rest =>
    if c = '/' then [] :: splitSlash rest
    else
      match splitSlash rest with
      | [] => [[c]]
      | x :: xs => (c :: x) :: xs

/-- A path as the system reads it: whether it starts at the root, and its elements
other than the empty one and `.`.  So `uploads`, `./uploads` and `./uploads/` are
one directory. -/
def pathKey (path : String) : Bool × List String :=
  (path.data.head? = some '/',
    ((splitSlash path.data).filter (fun x => !(x = [] || x = ['.']))).map String.mk)

/-- The entries of the directory `dir`, when it exists. -/
def lookupDir : FileSystem → String → Option (List DirEntry)
  | [], _ => none
  | (d, es) :: rest, dir => if pathKey d = pathKey dir then some es else lookupDir rest dir

/-- Replace the entries of the first directory that `dir` names. -/
def replaceDir : FileSystem → String → List DirEntry → FileSystem
  | [], _, _ => []
  | (d, es) :: rest, dir, es' =>
    if pathKey d = pathKey dir then (d, es') :: rest else (d, es) :: replaceDir rest dir es'

/-- Set the size of the entry `name`, adding the entry when it is not there. -/
def setEntry : List DirEntry → String → Nat → List DirEntry
  | [], name, n => [⟨name, n⟩]
  | e :: rest, name, n =>
    if e.name = name then ⟨name, n⟩ :: rest else e :: setEntry rest name n

/-- Take the entries called `name` out of a directory. -/
def removeEntry : List DirEntry → String → List DirEntry
  | [], _ => []
  | e :: rest, name => if e.name = name then removeEntry rest name else e :: removeEntry rest name

/-- The directory part and the final element of a slash-separated path. -/
def splitPath (path : String) : String × String :=
  let r := path.data.reverse
  (⟨((r.dropWhile (fun c => c != '/')).drop 1).reverse⟩,
   ⟨(r.takeWhile (fun c => c != '/')).reverse⟩)

/-- Give the file at `path` the size `n`, creating it when needed; fails when its
directory does not exist. -/
def writeFile (fs : FileSystem) (path : String) (n : Nat) : Except String FileSystem :=
  match lookupDir fs (splitPath path).1 with
  | none => .error ("open " ++ path ++ ": no such file or directory")
  | some es => .ok (replaceDir fs (splitPath path).1 (setEntry es (splitPath path).2 n))

/-- The call `os.Create(path)`: the file is created or truncated to size zero.  It
fails when the directory of `path` does not exist; its other failures come
through `Faults`. -/
def osCreate (fs : FileSystem) (io : Faults) (path : String) : Except String FileSystem :=
  match io.create with
  | some err => .error err
  | none => writeFile fs path 0

/-- The call `io.Copy(tmp, file)` for a source of `size` bytes into the open file
at `path`: the file system afterwards and the error, if any. -/
def ioCopy (fs : FileSystem) (io : Faults) (path : String) (size : Nat) :
    FileSystem × Option String :=
  match io.copy with
  | some (written, err) =>
    match writeFile fs path (min written size) with
    | .ok fs' => (fs', some err)
    | .error _ => (fs, some err)
  | none =>
    match writeFile fs path size with
    | .ok fs' => (fs', none)
    | .error e => (fs, some e)

/-- The call `os.Mkdir(dir, os.ModePerm)`: fails when the directory exists. -/
def osMkdir (fs : FileSystem) (io : Faults) (dir : String) : Except String FileSystem :=
  match io.mkdir with
  | some err => .error err
  | none =>
    match lookupDir fs dir with
    | some _ => .error ("mkdir " ++ dir ++ ": file exists")
    | none => .ok (fs ++ [(dir, [])])

/-- The files open for logging that lie in the directory `dir`, as entries. -/
def logEntries : LogFiles → String → List DirEntry
  | [], _ => []
  | (p, size) :: rest, dir =>
    if pathKey (splitPath p).1 = pathKey dir then
      ⟨(splitPath p).2, size⟩ :: logEntries rest dir
    else logEntries rest dir

/-- Add `n` bytes to the log file `path`; nothing happens when no such file is open. -/
def appendLog : LogFiles → String → Nat → LogFiles
  | [], _, _ => []
  | (p, size) :: rest, path, n =>
    if p = path then (p, size + n) :: rest else (p, size) :: appendLog rest path n

/-- Take the log file `path` out of the open log files. -/
def closeLog : LogFiles → String → LogFiles
  | [], _ => []
  | (p, size) :: rest, path => if p = path then closeLog rest path else (p, size) :: closeLog rest path

/-- The call `os.Create(path)` for a file that is then kept open for logging: the
file is created or truncated to size zero and leaves the table. -/
def createLog (fs : FileSystem) (lg : LogFiles) (io : Faults) (path : String) :
    Except String (FileSystem × LogFiles) :=
  match io.create with
  | some err => .error err
  | none =>
    match lookupDir fs (splitPath path).1 with
    | none => .error ("open " ++ path ++ ": no such file or directory")
    | some es =>
      .ok (replaceDir fs (splitPath path).1 (removeEntry es (splitPath path).2),
        (path, 0) :: closeLog lg path)

/-- The call `os.ReadDir(dir)`: the entries of the table and the open log files. -/
def osReadDir (fs : FileSystem) (lg : LogFiles) (io : Faults) (dir : String) :
    Except String (List DirEntry) :=
  match io.readDir with
  | some err => .error err
  | none =>
    match lookupDir fs dir with
    | none => .error ("open " ++ dir ++ ": no such file or directory")
    | some es => .ok (es ++ logEntries lg dir)

/-- The call `file.Info()` followed by `Size()`. -/
def entrySize (io : Faults) (e : DirEntry) : Except String Nat :=
  match io.info with
  | some err => .error err
  | none => .ok e.size

/-- The total size of the entries of `dir`, open log files included, as a
mathematical sum. -/
def folderSize (fs : FileSystem) (lg : LogFiles) (dir : String) : Option Nat :=
  (lookupDir fs dir).map (fun es => ((es ++ logEntries lg dir).map DirEntry.size).sum)

/-! ## path/filepath -/

/-- The loop of `filepath.Ext`, on the reversed path: `acc` is the suffix already passed. -/
def extLoop : List Char → List Char → List Char
  | [], _ => []
  | c :: rest, acc =>
    if c = '/' then [] else if c = '.' then '.' :: acc else extLoop rest (c :: acc)

/-- The function `filepath.Ext`, where the path separator is the slash: the suffix
starting at the last dot of the last element of the path, empty when that element
has no dot. -/
def Ext (path : String) : String := ⟨extLoop path.data.reverse []⟩

/-- An instance of the parameter `EqualFold`: equality up to the case of ASCII letters. -/
def asciiEqualFold (a b : String) : Bool :=
  a.data.map Char.toLower == b.data.map Char.toLower

/-! ## server.go -/

/-- The record `SimpleFileServer`.  A log file handle is the path of the file it
was opened on, `none` for a nil handle. -/
structure SimpleFileServer where
  settings : Settings
  doLogToFile : Bool
  latestLogFile : Option String
  currentLogFile : Option String
  spaceUsed : Nat
  sizeLimitBytes : Nat
  singleFileSizeLimitBytes : Nat
  maxMultipartBytes : Nat
  _initialized : Bool
deriving DecidableEq, Repr

/-- The call `fmt.Fprintln(file, logText)`: the text and a line feed are added to
the file behind the handle; the log files afterwards and whether the call failed. -/
def fprintln (lg : LogFiles) (io : Faults) (file : Option String) (logText : String) :
    LogFiles × Bool :=
  match file with
  | none => (lg, true)
  | some path =>
    match io.logWrite with
    | some _ => (lg, true)
    | none => (appendLog lg path (logText.utf8ByteSize + 1), false)

/-- The method `log`: the log files afterwards and the lines printed on the console. -/
def log (s : SimpleFileServer) (lg : LogFiles) (io : Faults) (logText : String) :
    LogFiles × List String :=
  if s.doLogToFile then
    ((fprintln (fprintln lg io s.currentLogFile logText).1 io s.latestLogFile logText).1,
      [logText]
        ++ (if (fprintln lg io s.currentLogFile logText).2
            then ["Failed to write to current log file!"] else [])
        ++ (if (fprintln (fprintln lg io s.currentLogFile logText).1 io s.latestLogFile
              logText).2
            then ["Failed to write to latest log file!"] else []))
  else (lg, [logText])

/-- The method `initializeLogs`, at the time whose formatted value is `now`: the
server, the table, the log files and the error afterwards. -/
def initializeLogs (s : SimpleFileServer) (fs : FileSystem) (io : Faults) (now : String) :
    SimpleFileServer × FileSystem × LogFiles × Option String :=
  if !s.doLogToFile then (s, fs, [], none)
  else
    let fs1 : FileSystem :=
      match osMkdir fs io "./logs" with
      | .ok fs' => fs'
      | .error _ => fs
    match createLog fs1 [] io "./logs/latest.txt" with
    | .error err => (s, fs1, [], some err)
    | .ok (fs2, lg2) =>
      match createLog fs2 lg2 io ("./logs/" ++ now ++ ".txt") with
      | .error err =>
        ({ s with latestLogFile := some "./logs/latest.txt", currentLogFile := none },
          fs2, lg2, some err)
      | .ok (fs3, lg3) =>
        ({ s with latestLogFile := some "./logs/latest.txt",
                  currentLogFile := some ("./logs/" ++ now ++ ".txt") }, fs3, lg3, none)

/-- The method `updateUsedSpace`, loop part: the running `uint64` total. -/
def sumSizes (io : Faults) : List DirEntry → Nat → Except String Nat
  | [], used => .ok used
  | e :: rest, used =>
    match entrySize io e with
    | .error err => .error err
    | .ok n => sumSizes io rest (uint64 (used + uint64 n))

/-- The method `updateUsedSpace`. -/
def updateUsedSpace (s : SimpleFileServer) (fs : FileSystem) (lg : LogFiles) (io : Faults) :
    Except String SimpleFileServer :=
  match osReadDir fs lg io s.settings.FolderPath with
  | .error err => .error err
  | .ok files =>
    match sumSizes io files 0 with
    | .error err => .error err
    | .ok used => .ok { s with spaceUsed := used }

/-- The method `Init`, at the time whose formatted value is `now`: the server, the
table and the log files after the call and the error returned.  The error of
`initializeLogs` is dropped, as in the source. -/
def Init (s : SimpleFileServer) (_settings : Settings) (_doLogToFile : Bool)
    (fs : FileSystem) (io : Faults) (now : String) :
    SimpleFileServer × FileSystem × LogFiles × Option String :=
  let s1 : SimpleFileServer :=
    { s with
      settings := _settings
      sizeLimitBytes := uint64 (_settings.SizeLimit * 2 ^ 20)
      singleFileSizeLimitBytes := uint64 (_settings.SingleFileSizeLimit * 2 ^ 20)
      maxMultipartBytes := uint64 (uint64 (_settings.SingleFileSizeLimit * 2 ^ 20) + 10 * 2 ^ 10)
      doLogToFile := _doLogToFile }
  let l := initializeLogs s1 fs io now
  match osMkdir l.2.1 io l.1.settings.FolderPath with
  | .ok fs1 => ({ l.1 with spaceUsed := 0, _initialized := true }, fs1, l.2.2.1, none)
  | .error _ =>
    match updateUsedSpace l.1 l.2.1 l.2.2.1 io with
    | .error err => (l.1, l.2.1, l.2.2.1, some err)
    | .ok s2 => ({ s2 with _initialized := true }, l.2.1, l.2.2.1, none)

/-- The zero value of `SimpleFileServer`, as declared in `main`. -/
def zeroServer : SimpleFileServer :=
  { settings := ⟨"", 0, 0, false, []⟩
    doLogToFile := false
    latestLogFile := none
    currentLogFile := none
    spaceUsed := 0
    sizeLimitBytes := 0
    singleFileSizeLimitBytes := 0
    maxMultipartBytes := 0
    _initialized := false }

/-- The file part returned by `r.FormFile`: its name and its size, an `int64`
that counts the bytes of the part. -/
structure FileHeader where
  Filename : String
  Size : Nat
  Size_lt : Size < 2 ^ 63

/-- What the handler reads of a request.  `formFile` is the outcome of
`r.ParseMultipartForm` followed by `r.FormFile("fileUpload")`. -/
structure Request where
  Method : String
  RemoteAddr : String
  formFile : Except String FileHeader

/-- One write to the HTTP response. -/
inductive ResponseWrite where
  /-- The call `fmt.Fprintf(w, text)`. -/
  | body (text : String)
  /-- The call `http.ServeFile(w, r, path)`. -/
  | serveFile (path : String)
deriving DecidableEq, Repr

/-- What one run of the handler leaves behind: the server, the table, the log
files, the writes to the response and the lines printed on the console. -/
structure Outcome where
  server : SimpleFileServer
  fs : FileSystem
  logFiles : LogFiles
  response : List ResponseWrite
  log : List String

/-- The destination name of an upload: lines 154 to 161 of `server.go`.  The loop
stops at the first forbidden extension that matches. -/
def appendTxt (EqualFold : String → String → Bool) (ext : String) :
    List String → String → String
  | [], filename => filename
  | e :: rest, filename =>
    if EqualFold e ext then filename ++ ".txt" else appendTxt EqualFold ext rest filename

/-- The destination name of an upload. -/
def destinationName (EqualFold : String → String → Bool) (forbidden : List String)
    (Filename : String) : String :=
  appendTxt EqualFold (Ext ("./uploads/" ++ Filename)) forbidden ("./uploads/" ++ Filename)

/-- The text written and logged in read-only mode. -/
def readOnlyMessage : String :=
  "Cannot upload file: Directory is marked as readonly in the settings."

/-- The text written when parsing, creating or copying fails. -/
def failedMessage : String := "File upload failed! See log for details."

/-- The line logged before the checks of an upload. -/
def uploadingLine (r : Request) (handler : FileHeader) : String :=
  r.RemoteAddr ++ ": Uploading " ++ handler.Filename ++ " of size "
    ++ toString handler.Size ++ " ..."

/-- The handler returned by `generateFileUploadHandler`, run on one request. -/
def uploadHandler (EqualFold : String → String → Bool) (s : SimpleFileServer)
    (fs : FileSystem) (lg : LogFiles) (io : Faults) (r : Request) : Outcome :=
  if r.Method = "GET" then
    let c := log s lg io "Serving the HTML form file ..."
    ⟨s, fs, c.1, [.serveFile "./www/upload.html"], c.2⟩
  else if r.Method ≠ "POST" then
    let c := log s lg io ("Unexpected request method: " ++ r.Method)
    ⟨s, fs, c.1, [], c.2⟩
  else
    let w0 : List ResponseWrite := if s.settings.ReadOnly then [.body readOnlyMessage] else []
    let c0 : LogFiles × List String :=
      if s.settings.ReadOnly then log s lg io readOnlyMessage else (lg, [])
    match r.formFile with
    | .error err =>
      let c1 := log s c0.1 io ("Error when parsing file upload: " ++ err)
      ⟨s, fs, c1.1, w0 ++ [.body failedMessage], c0.2 ++ c1.2⟩
    | .ok handler =>
      let c1 := log s c0.1 io (uploadingLine r handler)
      if uint64 handler.Size > s.singleFileSizeLimitBytes then
        let c2 := log s c1.1 io "File too large!"
        ⟨s, fs, c2.1, w0 ++ [.body "File too large!"], c0.2 ++ c1.2 ++ c2.2⟩
      else if uint64 (s.spaceUsed + uint64 handler.Size) > s.sizeLimitBytes then
        let c2 := log s c1.1 io "Not enough space for the file!"
        ⟨s, fs, c2.1, w0 ++ [.body "Not enough space to upload this file."],
          c0.2 ++ c1.2 ++ c2.2⟩
      else
        let filename := destinationName EqualFold s.settings.ForbiddenExtensions handler.Filename
        match osCreate fs io filename with
        | .error err =>
          let c2 := log s c1.1 io ("Failed to create file in the uploads: " ++ err)
          ⟨s, fs, c2.1, w0 ++ [.body failedMessage], c0.2 ++ c1.2 ++ c2.2⟩
        | .ok fs1 =>
          match ioCopy fs1 io filename handler.Size with
          | (fs2, some err) =>
            let c2 := log s c1.1 io ("Failed to copy file: " ++ err)
            ⟨s, fs2, c2.1, w0 ++ [.body failedMessage], c0.2 ++ c1.2 ++ c2.2⟩
          | (fs2, none) =>
            match updateUsedSpace s fs2 c1.1 io with
            | .error err =>
              let c2 := log s c1.1 io ("Failed to update used space: " ++ err)
              let c3 := log s c2.1 io "File upload successful."
              ⟨s, fs2, c3.1, w0 ++ [.body "File upload successful."],
                c0.2 ++ c1.2 ++ c2.2 ++ c3.2⟩
            | .ok s1 =>
              let c2 := log s1 c1.1 io "File upload successful."
              ⟨s1, fs2, c2.1, w0 ++ [.body "File upload successful."],
                c0.2 ++ c1.2 ++ c2.2⟩

/-- Whether the path is relative and has no `..` element, so that its elements
alone tell which directory it names. -/
def plainPath (path : String) : Bool :=
  !(pathKey path).1 && !(pathKey path).2.contains ".."

/-- Whether the file behind a log handle can be seen to lie outside the directory
`dir`: both directories are given by plain paths, which differ. -/
def handleOutside (file : Option String) (dir : String) : Bool :=
  match file with
  | none => true
  | some path =>
    plainPath (splitPath path).1 && plainPath dir && pathKey (splitPath path).1 != pathKey dir

/-- Whether the files that `log` writes to lie outside the directory `dir`: file
logging is off, or neither log file is in `dir`. -/
def logsOutside (s : SimpleFileServer) (dir : String) : Bool :=
  !s.doLogToFile || (handleOutside s.currentLogFile dir && handleOutside s.latestLogFile dir)

/-- The server `s` with other raw mebibyte values in its settings. -/
def withRawLimits (s : SimpleFileServer) (a b : Nat) : SimpleFileServer :=
  { s with settings := { s.settings with SizeLimit := a, SingleFileSizeLimit := b } }

/-! ## Concrete states used in the examples -/

/-- The formatted time of the start in the examples. -/
def startTime : String := "2024_05_17_at_09_30_00"

/-- The server after `Init` with the default settings on an empty file system. -/
def defaultServer : SimpleFileServer :=
  (Init zeroServer DefaultSettings true [] noFaults startTime).1

/-- The table after that `Init`: the log folder and the upload folder exist. -/
def defaultFs : FileSystem := (Init zeroServer DefaultSettings true [] noFaults startTime).2.1

/-- The log files after that `Init`: both are open and empty. -/
def defaultLogs : LogFiles := (Init zeroServer DefaultSettings true [] noFaults startTime).2.2.1

/-- A POST upload of the one-byte file `d.txt`. -/
def oneByteUpload : Request := ⟨"POST", "10.0.0.7:5123", .ok ⟨"d.txt", 1, by decide⟩⟩

/-- Settings of scenarios A and B: a quota of 10 MiB and 8 MiB per file. -/
def smallQuota : Settings := { DefaultSettings with SizeLimit := 10 }

/-- An upload folder that already holds 9 MiB. -/
def nineMiBFs : FileSystem := [("./uploads", [⟨"old.bin", 9 * 2 ^ 20⟩])]

/-- An upload folder whose three entries add up to `2 ^ 64 - 1` bytes. -/
def hugeFs : FileSystem :=
  [("./uploads", [⟨"a.img", 2 ^ 63 - 1⟩, ⟨"b.img", 2 ^ 63 - 1⟩, ⟨"c.txt", 1⟩])]

/-- The server started with the default settings on `hugeFs`. -/
def hugeServer : SimpleFileServer :=
  (Init zeroServer DefaultSettings true hugeFs noFaults startTime).1

/-- The server started with the default settings made read-only. -/
def readOnlyServer : SimpleFileServer :=
  (Init zeroServer { DefaultSettings with ReadOnly := true } true [] noFaults startTime).1

/-- Settings whose upload folder is `./data`. -/
def dataSettings : Settings := { DefaultSettings with FolderPath := "./data" }

/-- The server started with `dataSettings` where `./uploads` exists from an earlier run. -/
def dataServer : SimpleFileServer :=
  (Init zeroServer dataSettings true [("./uploads", [])] noFaults startTime).1

/-- The table after that start: `Init` has created `./logs` and `./data`. -/
def dataFs : FileSystem :=
  (Init zeroServer dataSettings true [("./uploads", [])] noFaults startTime).2.1

/-- The environment in which `os.ReadDir` fails. -/
def readDirFails : Faults := { noFaults with readDir := some "open ./uploads: too many open files" }

/-- Settings whose upload folder is the log folder, with a quota of zero. -/
def logsSettings : Settings := { DefaultSettings with FolderPath := "./logs", SizeLimit := 0 }

/-- The server started with `logsSettings` where `./uploads` exists from an earlier run. -/
def logsServer : SimpleFileServer :=
  (Init zeroServer logsSettings true [("./uploads", [])] noFaults startTime).1

/-- The table after that start. -/
def logsFs : FileSystem :=
  (Init zeroServer logsSettings true [("./uploads", [])] noFaults startTime).2.1

/-- A POST upload of the empty file `e.txt`. -/
def emptyUpload : Request := ⟨"POST", "10.0.0.7:5123", .ok ⟨"e.txt", 0, by decide⟩⟩

/-- Settings whose quota is `2 ^ 44 - 1` MiB, that is `2 ^ 64 - 2 ^ 20` bytes. -/
def maxQuota : Settings := { DefaultSettings with SizeLimit := 2 ^ 44 - 1 }

/-- An upload folder whose three entries add up to `2 ^ 64 - 2 ^ 20` bytes. -/
def fullFs : FileSystem :=
  [("./uploads", [⟨"a.img", 2 ^ 63 - 1⟩, ⟨"b.img", 2 ^ 63 - 2 ^ 20⟩, ⟨"c.txt", 1⟩])]

/-- The server started with `maxQuota` on `fullFs`. -/
def fullServer : SimpleFileServer := (Init zeroServer maxQuota true fullFs noFaults startTime).1

/-- The table after that start. -/
def fullStartFs : FileSystem := (Init zeroServer maxQuota true fullFs noFaults startTime).2.1

/-- A POST upload of 1 MiB under the name `c.txt`, which is already in the folder. -/
def oneMiBUpload : Request := ⟨"POST", "10.0.0.7:5123", .ok ⟨"c.txt", 2 ^ 20, by decide⟩⟩

/-! ## Go strings, for `settings.go` -/

/-- One step of a `for range` over a Go string, which is a sequence of bytes: a
rune, or a byte that belongs to no well-formed UTF-8 sequence. -/
inductive GoRune where
  | rune (c : Char)
  | invalid (b : Nat)
deriving DecidableEq, Repr

/-- A Go string, as the steps of a `for range` over it. -/
abbrev GoString := List GoRune

/-- The Go string of a text. -/
def goText (s : String) : GoString := s.data.map GoRune.rune

/-- The rune that a `for range` yields at one step: U+FFFD for a byte outside
well-formed UTF-8. -/
def decodedRune : GoRune → Char
  | .rune c => c
  | .invalid _ => Char.ofNat 65533

/-- The text that a `for range` over the Go string yields. -/
def decoded (s : GoString) : String := ⟨s.map decodedRune⟩

/-- Whether a Go string is well-formed UTF-8. -/
def wellFormed : GoString → Bool
  | [] => true
  | .rune _ :: rest => wellFormed rest
  | .invalid _ :: _ => false

/-- The record `Settings` as Go holds it: its strings are byte strings and its
slice is nil (`none`) or not. -/
structure GoSettings where
  FolderPath : GoString
  SizeLimit : Nat
  SingleFileSizeLimit : Nat
  ReadOnly : Bool
  ForbiddenExtensions : Option (List GoString)
deriving DecidableEq, Repr

/-- The Go record of a record whose strings are text. -/
def toGo (s : Settings) : GoSettings :=
  { FolderPath := goText s.FolderPath
    SizeLimit := s.SizeLimit
    SingleFileSizeLimit := s.SingleFileSizeLimit
    ReadOnly := s.ReadOnly
    ForbiddenExtensions := some (s.ForbiddenExtensions.map goText) }

/-- Whether every string of the record is well-formed UTF-8. -/
def GoSettings.wellFormed (s : GoSettings) : Bool :=
  SFS.wellFormed s.FolderPath
    && match s.ForbiddenExtensions with
       | none => true
       | some l => l.all SFS.wellFormed

/-- The record with every byte outside well-formed UTF-8 replaced by U+FFFD. -/
def GoSettings.decoded (s : GoSettings) : GoSettings :=
  { s with
    FolderPath := goText (SFS.decoded s.FolderPath)
    ForbiddenExtensions := s.ForbiddenExtensions.map (fun l => l.map (fun x => goText (SFS.decoded x))) }

/-! ## encoding/json on `Settings` -/

/-- The double quote. -/
def dquote : Char := Char.ofNat 34

/-- The backslash. -/
def bslash : Char := Char.ofNat 92

/-- How `encoding/json` writes one rune of a string, with the HTML escaping that
`json.Marshal` turns on; `\b` and `\f` are the short forms of Go 1.22. -/
def escapeChar (c : Char) : List Char :=
  if c = dquote ∨ c = bslash then [bslash, c]
  else if c = Char.ofNat 8 then [bslash, 'b']
  else if c = Char.ofNat 12 then [bslash, 'f']
  else if c = Char.ofNat 10 then [bslash, 'n']
  else if c = Char.ofNat 13 then [bslash, 'r']
  else if c = Char.ofNat 9 then [bslash, 't']
  else if c.toNat < 32 ∨ c = '<' ∨ c = '>' ∨ c = '&' then
    [bslash, 'u', '0', '0', Nat.digitChar (c.toNat / 16), Nat.digitChar (c.toNat % 16)]
  else if c = Char.ofNat 8232 ∨ c = Char.ofNat 8233 then
    [bslash, 'u', '2', '0', '2', Nat.digitChar (c.toNat % 16)]
  else [c]

/-- How `encoding/json` writes one step of a string: a rune as `escapeChar` says, a
byte outside well-formed UTF-8 as the escape of U+FFFD. -/
def escapeRune : GoRune → List Char
  | .rune c => escapeChar c
  | .invalid _ => [bslash, 'u', 'f', 'f', 'f', 'd']

/-- The body of a JSON string literal. -/
def escape : GoString → List Char
  | [] => []
  | g :: gs => escapeRune g ++ escape gs

/-- A JSON string literal. -/
def quote (s : GoString) : List Char := dquote :: escape s ++ [dquote]

/-- The value of a hexadecimal digit. -/
def hexVal (c : Char) : Option Nat :=
  if 48 ≤ c.toNat ∧ c.toNat ≤ 57 then some (c.toNat - 48)
  else if 97 ≤ c.toNat ∧ c.toNat ≤ 102 then some (c.toNat - 87)
  else if 65 ≤ c.toNat ∧ c.toNat ≤ 70 then some (c.toNat - 55)
  else none

/-- The character of a `\u` escape; a surrogate half is read as U+FFFD. -/
def runeOf (v : Nat) : Char :=
  if 55296 ≤ v ∧ v ≤ 57343 then Char.ofNat 65533 else Char.ofNat v

/-- The character of a one-letter escape. -/
def unescape (e : Char) : Option Char :=
  if e = dquote then some dquote
  else if e = bslash then some bslash
  else if e = '/' then some '/'
  else if e = 'b' then some (Char.ofNat 8)
  else if e = 'f' then some (Char.ofNat 12)
  else if e = 'n' then some (Char.ofNat 10)
  else if e = 'r' then some (Char.ofNat 13)
  else if e = 't' then some (Char.ofNat 9)
  else none

/-- Read the body of a string literal up to its closing quote: the string and the
rest of the input. -/
def unquoteLoop : List Char → Option (List Char × List Char)
  | [] => none
  | c :: rest =>
    if c = dquote then some ([], rest)
    else if c = bslash then
      match rest with
      | [] => none
      | e :: rest1 =>
        if e = 'u' then
          match rest1 with
          | h3 :: h2 :: h1 :: h0 :: rest2 =>
            match hexVal h3, hexVal h2, hexVal h1, hexVal h0, unquoteLoop rest2 with
            | some a, some b, some c, some d, some (s, r) =>
              some (runeOf (a * 4096 + b * 256 + c * 16 + d) :: s, r)
            | _, _, _, _, _ => none
          | _ => none
        else
          match unescape e, unquoteLoop rest1 with
          | some ch, some (s, r) => some (ch :: s, r)
          | _, _ => none
    else if c.toNat < 32 then none
    else
      match unquoteLoop rest with
      | some (s, r) => some (c :: s, r)
      | none => none

/-- Whether the character is a decimal digit. -/
def isDigit (c : Char) : Bool := 48 ≤ c.toNat && c.toNat ≤ 57

/-- Read decimal digits as long as there are some, continuing from the value `acc`. -/
def readDigits : List Char → Nat → Nat × List Char
  | [], acc => (acc, [])
  | c :: rest, acc =>
    if isDigit c then readDigits rest (10 * acc + (c.toNat - 48)) else (acc, c :: rest)

/-- Whether the input goes on with a character that satisfies `p`. -/
def headIs (p : Char → Bool) : List Char → Bool
  | [] => false
  | c :: _ => p c

/-- Whether the character opens the fraction or the exponent of a number. -/
def isFraction (c : Char) : Bool := c = '.' || c = 'e' || c = 'E'

/-- Read a JSON number into a `uint64`: an integer literal without sign, fraction
or exponent, no leading zero, below `2 ^ 64`. -/
def parseUint64 (input : List Char) : Option (Nat × List Char) :=
  match input with
  | [] => none
  | c :: rest =>
    if !isDigit c then none
    else if c = '0' ∧ headIs isDigit rest then none
    else if headIs isFraction (readDigits input 0).2 then none
    else if (readDigits input 0).1 < 2 ^ 64 then some (readDigits input 0) else none

/-- The opening brace. -/
def lbrace : Char := Char.ofNat 123

/-- The closing brace. -/
def rbrace : Char := Char.ofNat 125

/-- The literal `null`. -/
def nullLit : List Char := ['n', 'u', 'l', 'l']

/-- The literal `true`. -/
def trueLit : List Char := ['t', 'r', 'u', 'e']

/-- The literal `false`. -/
def falseLit : List Char := ['f', 'a', 'l', 's', 'e']

/-- Drop the characters of `lit` from the front of the input. -/
def expectLit : List Char → List Char → Option (List Char)
  | [], input => some input
  | _ :: _, [] => none
  | l :: ls, c :: rest => if c = l then expectLit ls rest else none

/-- Read a JSON string literal. -/
def parseString (input : List Char) : Option (String × List Char) :=
  match input with
  | [] => none
  | c :: rest =>
    if c = dquote then
      match unquoteLoop rest with
      | some (s, r) => some (⟨s⟩, r)
      | none => none
    else none

/-- How `encoding/json` writes a `bool`. -/
def marshalBool (b : Bool) : List Char := if b then trueLit else falseLit

/-- Read `true` or `false`. -/
def parseBool (input : List Char) : Option (Bool × List Char) :=
  match expectLit trueLit input with
  | some rest => some (true, rest)
  | none =>
    match expectLit falseLit input with
    | some rest => some (false, rest)
    | none => none

/-- The elements of an array after the first one, and the closing bracket. -/
def marshalElems : List GoString → List Char
  | [] => [']']
  | x :: xs => ',' :: (quote x ++ marshalElems xs)

/-- How `encoding/json` writes a `[]string`: `null` for the nil slice. -/
def marshalStrings : Option (List GoString) → List Char
  | none => nullLit
  | some [] => ['[', ']']
  | some (x :: xs) => '[' :: (quote x ++ marshalElems xs)

/-- Read the elements of an array after the first one, up to the closing bracket. -/
def parseElems : Nat → List Char → Option (List String × List Char)
  | 0, _ => none
  | fuel + 1, input =>
    match input with
    | [] => none
    | c :: rest =>
      if c = ']' then some ([], rest)
      else if c = ',' then
        match parseString rest with
        | none => none
        | some (x, rest1) =>
          match parseElems fuel rest1 with
          | none => none
          | some (xs, rest2) => some (x :: xs, rest2)
      else none

/-- Read an array of strings. -/
def parseStrings (input : List Char) : Option (List String × List Char) :=
  match input with
  | [] => none
  | c :: rest =>
    if c = '[' then
      if headIs (fun d => d = ']') rest then some ([], rest.drop 1)
      else
        match parseString rest with
        | none => none
        | some (x, rest1) =>
          match parseElems input.length rest1 with
          | none => none
          | some (xs, rest2) => some (x :: xs, rest2)
    else none

/-- Read the value of the member `key` into the record `s`.  The value `null`
leaves a field as it is, except that it makes a slice nil. -/
def parseMember (key : String) (s : GoSettings) (input : List Char) :
    Option (GoSettings × List Char) :=
  if key = "FolderPath" then
    match expectLit nullLit input, parseString input with
    | some rest, _ => some (s, rest)
    | none, some (v, rest) => some ({ s with FolderPath := goText v }, rest)
    | none, none => none
  else if key = "SizeLimit" then
    match expectLit nullLit input, parseUint64 input with
    | some rest, _ => some (s, rest)
    | none, some (v, rest) => some ({ s with SizeLimit := v }, rest)
    | none, none => none
  else if key = "SingleFileSizeLimit" then
    match expectLit nullLit input, parseUint64 input with
    | some rest, _ => some (s, rest)
    | none, some (v, rest) => some ({ s with SingleFileSizeLimit := v }, rest)
    | none, none => none
  else if key = "ReadOnly" then
    match expectLit nullLit input, parseBool input with
    | some rest, _ => some (s, rest)
    | none, some (v, rest) => some ({ s with ReadOnly := v }, rest)
    | none, none => none
  else if key = "ForbiddenExtensions" then
    match expectLit nullLit input, parseStrings input with
    | some rest, _ => some ({ s with ForbiddenExtensions := none }, rest)
    | none, some (v, rest) => some ({ s with ForbiddenExtensions := some (v.map goText) }, rest)
    | none, none => none
  else none

/-- Read the members of an object, up to the closing brace, into the record `s`. -/
def parseMembers : Nat → GoSettings → List Char → Option (GoSettings × List Char)
  | 0, _, _ => none
  | fuel + 1, s, input =>
    match parseString input with
    | none => none
    | some (key, rest) =>
      match rest with
      | [] => none
      | c :: rest1 =>
        if c = ':' then
          match parseMember key s rest1 with
          | none => none
          | some (s1, rest2) =>
            match rest2 with
            | [] => none
            | d :: rest3 =>
              if d = ',' then parseMembers fuel s1 rest3
              else if d = rbrace then some (s1, rest3)
              else none
        else none

/-- The text `json.Marshal` writes for a `Settings` record. -/
def marshalChars (s : GoSettings) : List Char :=
  lbrace :: (quote (goText "FolderPath") ++ ':' :: (quote s.FolderPath ++ ',' ::
    (quote (goText "SizeLimit") ++ ':' :: (Nat.toDigits 10 s.SizeLimit ++ ',' ::
    (quote (goText "SingleFileSizeLimit") ++ ':' ::
      (Nat.toDigits 10 s.SingleFileSizeLimit ++ ',' ::
    (quote (goText "ReadOnly") ++ ':' :: (marshalBool s.ReadOnly ++ ',' ::
    (quote (goText "ForbiddenExtensions") ++ ':' ::
      (marshalStrings s.ForbiddenExtensions ++ [rbrace]))))))))))

/-- The function `json.Marshal` on a `Settings` record; it has no error case there
and its output is text. -/
def Marshal (s : GoSettings) : String := ⟨marshalChars s⟩

/-- The function `json.Unmarshal` into the record `s`, on the documents without
white space whose members are fields of `Settings`, named as in the record:
members may come in any order, any number of times, and a member that is absent
leaves its field as it is.  Go accepts more documents (white space, other
members, names in another case); this definition returns an error on them. -/
def Unmarshal (data : String) (s : GoSettings) : Except String GoSettings :=
  match data.data with
  | [] => .error "unexpected end of JSON input"
  | c :: rest =>
    if c = lbrace then
      if rest = [rbrace] then .ok s
      else
        match parseMembers rest.length s rest with
        | some (s1, []) => .ok s1
        | _ => .error "invalid JSON input"
    else if data = "null" then .ok s
    else .error "invalid JSON input"

/-! ## Saving and loading the settings -/

/-- The files that hold text, by path. -/
abbrev FileStore := String → Option String

/-- The call `os.WriteFile(filename, data, os.ModePerm)`: the file is created or
replaced; with a fault the call fails before anything is written. -/
def osWriteFile (store : FileStore) (fault : Option String) (filename data : String) :
    FileStore × Option String :=
  match fault with
  | some err => (store, some err)
  | none => (fun p => if p = filename then some data else store p, none)

/-- The call `os.ReadFile(filename)`. -/
def osReadFile (store : FileStore) (filename : String) : Except String String :=
  match store filename with
  | none => .error ("open " ++ filename ++ ": no such file or directory")
  | some data => .ok data

/-- The method `Settings.Save`: the files after the call and the error returned.
The call `json.Marshal` has no error case on a `Settings` record. -/
def Save (s : GoSettings) (store : FileStore) (fault : Option String) (filename : String) :
    FileStore × Option String :=
  osWriteFile store fault filename (Marshal s)

/-- The method `Settings.Load` on the record `s`: the record after the call, or
the error returned (what the record holds after an error is not modelled). -/
def Load (s : GoSettings) (store : FileStore) (filename : String) : Except String GoSettings :=
  match osReadFile store filename with
  | .error err => .error err
  | .ok data => Unmarshal data s

/-- The zero value of `Settings`, a fresh record. -/
def zeroSettings : GoSettings := ⟨[], 0, 0, false, none⟩

/-- The default settings with a folder path of three bytes `a`, `0xff`, `b`. -/
def badPathSettings : GoSettings :=
  { toGo DefaultSettings with FolderPath := [.rune 'a', .invalid 255, .rune 'b'] }

/-! # Theorems -/

/-! ## Lemmas on machine integers -/

theorem uint64_of_lt {n : Nat} (h : n < 2 ^ 64) : uint64 n = n := by
  unfold uint64
  exact Nat.mod_eq_of_lt h

theorem uint64_Size (handler : FileHeader) : uint64 handler.Size = handler.Size := by
  apply uint64_of_lt
  have := handler.Size_lt
  omega

theorem uint64_add_uint64 (a b : Nat) : uint64 (a + uint64 b) = uint64 (a + b) := by
  unfold uint64
  omega

/-! ## Lemmas on `filepath.Ext` -/

theorem extLoop_append_slash (n r acc : List Char) :
    extLoop (n ++ '/' :: r) acc = extLoop n acc := by
  induction n generalizing acc with
  | nil => simp [extLoop]
  | cons c n ih =>
    simp only [List.cons_append, extLoop]
    split
    · rfl
    · split
      · rfl
      · exact ih _

theorem Ext_uploads (Filename : String) : Ext ("./uploads/" ++ Filename) = Ext Filename := by
  unfold Ext
  have h : ("./uploads/" ++ Filename).data.reverse
      = Filename.data.reverse ++ '/' :: "./uploads".data.reverse := by
    simp [String.data_append]
  rw [h, extLoop_append_slash]

theorem appendTxt_eq (EqualFold : String → String → Bool) (ext : String)
    (forbidden : List String) (filename : String) :
    appendTxt EqualFold ext forbidden filename =
      if ∃ e ∈ forbidden, EqualFold e ext = true then filename ++ ".txt" else filename := by
  induction forbidden with
  | nil => simp [appendTxt]
  | cons e rest ih =>
    simp only [appendTxt, List.mem_cons, exists_eq_or_imp]
    by_cases h : EqualFold e ext = true
    · simp [h]
    · simp [h, ih]

/-! ## The upload handler: rejections -/

theorem paths_appendLog (lg : LogFiles) (path : String) (n : Nat) :
    (appendLog lg path n).map Prod.fst = lg.map Prod.fst := by
  induction lg with
  | nil => rfl
  | cons f rest ih =>
    obtain ⟨p, size⟩ := f
    by_cases hp : p = path
    · simp [appendLog, hp]
    · simp [appendLog, hp, ih]

theorem paths_fprintln (lg : LogFiles) (io : Faults) (file : Option String) (logText : String) :
    (fprintln lg io file logText).1.map Prod.fst = lg.map Prod.fst := by
  unfold fprintln
  cases file with
  | none => rfl
  | some path =>
    cases io.logWrite with
    | some e => rfl
    | none => exact paths_appendLog lg path _

theorem paths_log (s : SimpleFileServer) (lg : LogFiles) (io : Faults) (logText : String) :
    (log s lg io logText).1.map Prod.fst = lg.map Prod.fst := by
  unfold log
  split
  · simp only
    rw [paths_fprintln, paths_fprintln]
  · rfl

theorem paths_readOnlyNotice (s : SimpleFileServer) (lg : LogFiles) (io : Faults) :
    (if s.settings.ReadOnly = true then log s lg io readOnlyMessage else (lg, [])).1.map Prod.fst
      = lg.map Prod.fst := by
  split
  · exact paths_log _ _ _ _
  · rfl

/-- C1: a POST upload whose declared size is greater than `singleFileSizeLimitBytes`
is answered with "File too large!" (after the read-only notice, when the store is
read-only), the file system is unchanged and so is the server, `spaceUsed` included;
the log files, which receive the logged lines, are the same files as before. -/
theorem upload_too_large (EqualFold : String → String → Bool) (s : SimpleFileServer)
    (fs : FileSystem) (lg : LogFiles) (io : Faults) (r : Request) (handler : FileHeader)
    (hm : r.Method = "POST") (hf : r.formFile = .ok handler)
    (hsz : handler.Size > s.singleFileSizeLimitBytes) :
    (uploadHandler EqualFold s fs lg io r).response
        = (if s.settings.ReadOnly then [.body readOnlyMessage] else [])
          ++ [.body "File too large!"]
      ∧ (uploadHandler EqualFold s fs lg io r).fs = fs
      ∧ (uploadHandler EqualFold s fs lg io r).server = s
      ∧ (uploadHandler EqualFold s fs lg io r).server.spaceUsed = s.spaceUsed
      ∧ (uploadHandler EqualFold s fs lg io r).logFiles.map Prod.fst = lg.map Prod.fst := by
  unfold uploadHandler
  simp only [hm, hf, uint64_Size, hsz]
  simp [paths_log, paths_readOnlyNotice]

/-- Scenario A of the specification: quota 10 MiB, 8 MiB per file, a file of 9 MiB. -/
theorem upload_too_large_witness :
    (uploadHandler asciiEqualFold (Init zeroServer smallQuota true [] noFaults startTime).1
        defaultFs defaultLogs noFaults
        ⟨"POST", "10.0.0.7:5123", .ok ⟨"big.iso", 9 * 2 ^ 20, by decide⟩⟩).response
        = [.body "File too large!"]
      ∧ (uploadHandler asciiEqualFold (Init zeroServer smallQuota true [] noFaults startTime).1
        defaultFs defaultLogs noFaults
        ⟨"POST", "10.0.0.7:5123", .ok ⟨"big.iso", 9 * 2 ^ 20, by decide⟩⟩).fs
        = defaultFs := by
  have h := upload_too_large asciiEqualFold
    (Init zeroServer smallQuota true [] noFaults startTime).1
    defaultFs defaultLogs noFaults
    ⟨"POST", "10.0.0.7:5123", .ok ⟨"big.iso", 9 * 2 ^ 20, by decide⟩⟩
    ⟨"big.iso", 9 * 2 ^ 20, by decide⟩ rfl rfl (by decide)
  exact ⟨h.1, h.2.1⟩

/-- C2, as stated, fails: the folder holds `2 ^ 64 - 1` bytes against a quota of
128 MiB, the sum with the one new byte wraps around to zero in `uint64`, and the
upload is accepted and stored. -/
theorem upload_over_quota_counterexample :
    Init zeroServer DefaultSettings true hugeFs noFaults startTime
        = (hugeServer, hugeFs ++ [("./logs", [])], defaultLogs, none)
      ∧ hugeServer.spaceUsed = 2 ^ 64 - 1
      ∧ hugeServer.sizeLimitBytes = 128 * 2 ^ 20
      ∧ hugeServer.spaceUsed + 1 > hugeServer.sizeLimitBytes
      ∧ (uploadHandler asciiEqualFold hugeServer (hugeFs ++ [("./logs", [])]) defaultLogs
          noFaults oneByteUpload).response
          = [.body "File upload successful."]
      ∧ (uploadHandler asciiEqualFold hugeServer (hugeFs ++ [("./logs", [])]) defaultLogs
          noFaults oneByteUpload).fs
          = [("./uploads", [⟨"a.img", 2 ^ 63 - 1⟩, ⟨"b.img", 2 ^ 63 - 1⟩, ⟨"c.txt", 1⟩,
              ⟨"d.txt", 1⟩]), ("./logs", [])] := by
  decide

/-- C2, amended: a POST upload for which the `uint64` sum of `spaceUsed` and the
declared size (the sum reduced modulo `2 ^ 64`) is greater than `sizeLimitBytes` is
rejected, with "Not enough space to upload this file." unless the per-file limit
is exceeded too; the file system and the server are unchanged, and the log files,
which receive the logged lines, are the same files as before. -/
theorem upload_over_quota (EqualFold : String → String → Bool) (s : SimpleFileServer)
    (fs : FileSystem) (lg : LogFiles) (io : Faults) (r : Request) (handler : FileHeader)
    (hm : r.Method = "POST") (hf : r.formFile = .ok handler)
    (hq : (s.spaceUsed + handler.Size) % 2 ^ 64 > s.sizeLimitBytes) :
    (uploadHandler EqualFold s fs lg io r).response
        = (if s.settings.ReadOnly then [.body readOnlyMessage] else [])
          ++ [.body (if handler.Size > s.singleFileSizeLimitBytes then "File too large!"
                else "Not enough space to upload this file.")]
      ∧ (uploadHandler EqualFold s fs lg io r).fs = fs
      ∧ (uploadHandler EqualFold s fs lg io r).server = s
      ∧ (uploadHandler EqualFold s fs lg io r).logFiles.map Prod.fst = lg.map Prod.fst := by
  have hq' : uint64 (s.spaceUsed + handler.Size) > s.sizeLimitBytes := hq
  unfold uploadHandler
  by_cases hsz : handler.Size > s.singleFileSizeLimitBytes
  · simp only [hm, hf, uint64_Size, hsz]
    simp [paths_log, paths_readOnlyNotice]
  · simp only [hm, hf, uint64_Size, hsz, hq']
    simp [paths_log, paths_readOnlyNotice]

/-- Scenario B of the specification: quota 10 MiB, 9 MiB used, a file of 2 MiB. -/
theorem upload_over_quota_witness :
    (Init zeroServer smallQuota true nineMiBFs noFaults startTime).1.spaceUsed = 9 * 2 ^ 20
      ∧ (uploadHandler asciiEqualFold
          (Init zeroServer smallQuota true nineMiBFs noFaults startTime).1
          (nineMiBFs ++ [("./logs", [])]) defaultLogs noFaults
          ⟨"POST", "10.0.0.7:5123", .ok ⟨"new.bin", 2 * 2 ^ 20, by decide⟩⟩).response
        = [.body "Not enough space to upload this file."]
      ∧ (uploadHandler asciiEqualFold
          (Init zeroServer smallQuota true nineMiBFs noFaults startTime).1
          (nineMiBFs ++ [("./logs", [])]) defaultLogs noFaults
          ⟨"POST", "10.0.0.7:5123", .ok ⟨"new.bin", 2 * 2 ^ 20, by decide⟩⟩).fs
        = nineMiBFs ++ [("./logs", [])] := by
  have h := upload_over_quota asciiEqualFold
    (Init zeroServer smallQuota true nineMiBFs noFaults startTime).1
    (nineMiBFs ++ [("./logs", [])]) defaultLogs noFaults
    ⟨"POST", "10.0.0.7:5123", .ok ⟨"new.bin", 2 * 2 ^ 20, by decide⟩⟩
    ⟨"new.bin", 2 * 2 ^ 20, by decide⟩ rfl rfl (by decide)
  exact ⟨by decide, h.1, h.2.1⟩

/-! ## The destination name -/

/-- C3: the destination name is `./uploads/` followed by the client's file name,
with one `.txt` appended exactly when the extension of the file name is equal,
up to case, to some entry of the forbidden extensions (one suffix, however many
entries match), and nothing appended otherwise. -/
theorem destinationName_eq (EqualFold : String → String → Bool) (forbidden : List String)
    (Filename : String) :
    destinationName EqualFold forbidden Filename =
      if ∃ e ∈ forbidden, EqualFold e (Ext Filename) = true
      then "./uploads/" ++ Filename ++ ".txt"
      else "./uploads/" ++ Filename := by
  unfold destinationName
  rw [appendTxt_eq, Ext_uploads]

/-! ## Response writes -/

/-- C8, as stated, fails: a PUT request is logged and the handler returns without
writing to the response. -/
theorem one_write_counterexample :
    (uploadHandler asciiEqualFold defaultServer defaultFs defaultLogs noFaults
      ⟨"PUT", "10.0.0.7:5123", .error "request Content-Type isn't multipart/form-data"⟩).response
      = [] := by
  decide

/-- C8, amended: unless the request is a POST to a read-only store, the handler
writes to the response exactly once when the method is GET or POST, whatever the
parsing, size, quota and input-output outcomes, and not at all for any other method. -/
theorem one_write (EqualFold : String → String → Bool) (s : SimpleFileServer)
    (fs : FileSystem) (lg : LogFiles) (io : Faults) (r : Request)
    (hro : r.Method = "POST" → s.settings.ReadOnly = false) :
    (uploadHandler EqualFold s fs lg io r).response.length
      = if r.Method = "GET" ∨ r.Method = "POST" then 1 else 0 := by
  unfold uploadHandler
  by_cases hg : r.Method = "GET"
  · simp [hg]
  · by_cases hp : r.Method = "POST"
    · have hro' := hro hp
      simp only [hp, hro']
      simp
      repeat' split
      all_goals simp
    · simp [hg, hp]

/-- A POST upload to a writable store: one write. -/
theorem one_write_witness :
    (uploadHandler asciiEqualFold defaultServer defaultFs defaultLogs noFaults
      oneByteUpload).response.length = 1 :=
  one_write asciiEqualFold defaultServer defaultFs defaultLogs noFaults oneByteUpload
    (fun _ => by decide)

/-! ## The derived limits -/

theorem log_withRawLimits (s : SimpleFileServer) (a b : Nat) (lg : LogFiles) (io : Faults)
    (logText : String) : log (withRawLimits s a b) lg io logText = log s lg io logText := rfl

theorem updateUsedSpace_withRawLimits (s : SimpleFileServer) (a b : Nat) (fs : FileSystem)
    (lg : LogFiles) (io : Faults) :
    updateUsedSpace (withRawLimits s a b) fs lg io
      = (updateUsedSpace s fs lg io).map (fun t => withRawLimits t a b) := by
  unfold updateUsedSpace withRawLimits
  simp only
  cases osReadDir fs lg io s.settings.FolderPath with
  | error e => rfl
  | ok files =>
    simp only
    cases sumSizes io files 0 with
    | error e => rfl
    | ok used => rfl

theorem initializeLogs_limits (s : SimpleFileServer) (fs : FileSystem) (io : Faults)
    (now : String) :
    (initializeLogs s fs io now).1.sizeLimitBytes = s.sizeLimitBytes
      ∧ (initializeLogs s fs io now).1.singleFileSizeLimitBytes = s.singleFileSizeLimitBytes := by
  unfold initializeLogs
  split
  · exact ⟨rfl, rfl⟩
  · simp only
    split
    · exact ⟨rfl, rfl⟩
    · split
      · exact ⟨rfl, rfl⟩
      · exact ⟨rfl, rfl⟩

theorem updateUsedSpace_limits (s s1 : SimpleFileServer) (fs : FileSystem) (lg : LogFiles)
    (io : Faults) (h : updateUsedSpace s fs lg io = .ok s1) :
    s1.sizeLimitBytes = s.sizeLimitBytes
      ∧ s1.singleFileSizeLimitBytes = s.singleFileSizeLimitBytes := by
  unfold updateUsedSpace at h
  split at h
  · cases h
  · split at h
    · cases h
    · cases h
      exact ⟨rfl, rfl⟩

theorem uploadHandler_withRawLimits (EqualFold : String → String → Bool)
    (s : SimpleFileServer) (fs : FileSystem) (lg : LogFiles) (io : Faults) (r : Request)
    (a b : Nat) :
    uploadHandler EqualFold (withRawLimits s a b) fs lg io r
      = { uploadHandler EqualFold s fs lg io r with
          server := withRawLimits (uploadHandler EqualFold s fs lg io r).server a b } := by
  by_cases hg : r.Method = "GET"
  · simp [uploadHandler, hg, log_withRawLimits]
  by_cases hp : r.Method = "POST"
  swap
  · simp [uploadHandler, hg, hp, log_withRawLimits]
  have hs : (withRawLimits s a b).settings.ReadOnly = s.settings.ReadOnly := rfl
  have hfe : (withRawLimits s a b).settings.ForbiddenExtensions
      = s.settings.ForbiddenExtensions := rfl
  have hsp : (withRawLimits s a b).spaceUsed = s.spaceUsed := rfl
  have hl1 : (withRawLimits s a b).sizeLimitBytes = s.sizeLimitBytes := rfl
  have hl2 : (withRawLimits s a b).singleFileSizeLimitBytes = s.singleFileSizeLimitBytes := rfl
  cases hf : r.formFile with
  | error e => simp [uploadHandler, hp, hf, log_withRawLimits, hs]
  | ok handler =>
  by_cases h1 : uint64 handler.Size > s.singleFileSizeLimitBytes
  · simp [uploadHandler, hp, hf, log_withRawLimits, hs, hl2, h1]
  by_cases h2 : uint64 (s.spaceUsed + uint64 handler.Size) > s.sizeLimitBytes
  · simp [uploadHandler, hp, hf, log_withRawLimits, hs, hl2, hl1, hsp, h1, h2]
  cases hc : osCreate fs io
      (destinationName EqualFold s.settings.ForbiddenExtensions handler.Filename) with
  | error e => simp [uploadHandler, hp, hf, log_withRawLimits, hs, hl2, hl1, hsp, hfe, h1, h2, hc]
  | ok fs2 =>
  rcases hcp : ioCopy fs2 io
      (destinationName EqualFold s.settings.ForbiddenExtensions handler.Filename)
      handler.Size with ⟨fs3, _ | e⟩
  swap
  · simp [uploadHandler, hp, hf, log_withRawLimits, hs, hl2, hl1, hsp, hfe, h1, h2, hc, hcp]
  cases hu : updateUsedSpace s fs3
      (log s (if s.settings.ReadOnly = true then log s lg io readOnlyMessage else (lg, [])).1 io
        (uploadingLine r handler)).1 io with
  | error e =>
    simp [uploadHandler, hp, hf, log_withRawLimits, hs, hl2, hl1, hsp, hfe, h1, h2, hc, hcp,
      updateUsedSpace_withRawLimits, hu, Except.map]
  | ok s1 =>
    have hlog : ∀ lg1 t, log (withRawLimits s1 a b) lg1 io t = log s1 lg1 io t := fun _ _ => rfl
    simp [uploadHandler, hp, hf, log_withRawLimits, hs, hl2, hl1, hsp, hfe, h1, h2, hc, hcp,
      updateUsedSpace_withRawLimits, hu, Except.map, hlog]

/-- C9, as stated, fails: with `SizeLimit = 2 ^ 44` the product by `2 ^ 20` does
not fit in a `uint64` and the derived quota is zero. -/
theorem Init_limits_counterexample :
    (Init zeroServer { DefaultSettings with SizeLimit := 2 ^ 44 } true [] noFaults
        startTime).1.sizeLimitBytes = 0
      ∧ (Init zeroServer { DefaultSettings with SizeLimit := 2 ^ 44 } true [] noFaults
        startTime).1.sizeLimitBytes ≠ 2 ^ 44 * 2 ^ 20 := by
  decide

/-- C9, amended: after `Init` the derived limits are `SizeLimit * 2 ^ 20` and
`SingleFileSizeLimit * 2 ^ 20` reduced modulo `2 ^ 64`, also when `Init` returns
an error; and the handler does not read the raw mebibyte values: with any other raw
values in the settings of the server it gives the same response, file system, log
files, log and usage total. -/
theorem Init_limits (s0 : SimpleFileServer) (_settings : Settings) (_doLogToFile : Bool)
    (fs : FileSystem) (io : Faults) (now : String) :
    (Init s0 _settings _doLogToFile fs io now).1.sizeLimitBytes
        = _settings.SizeLimit * 2 ^ 20 % 2 ^ 64
      ∧ (Init s0 _settings _doLogToFile fs io now).1.singleFileSizeLimitBytes
        = _settings.SingleFileSizeLimit * 2 ^ 20 % 2 ^ 64
      ∧ ∀ (EqualFold : String → String → Bool) (s : SimpleFileServer) (fs1 : FileSystem)
          (lg1 : LogFiles) (io1 : Faults) (r : Request) (a b : Nat),
          (uploadHandler EqualFold (withRawLimits s a b) fs1 lg1 io1 r).response
              = (uploadHandler EqualFold s fs1 lg1 io1 r).response
            ∧ (uploadHandler EqualFold (withRawLimits s a b) fs1 lg1 io1 r).fs
              = (uploadHandler EqualFold s fs1 lg1 io1 r).fs
            ∧ (uploadHandler EqualFold (withRawLimits s a b) fs1 lg1 io1 r).log
              = (uploadHandler EqualFold s fs1 lg1 io1 r).log
            ∧ (uploadHandler EqualFold (withRawLimits s a b) fs1 lg1 io1 r).server.spaceUsed
              = (uploadHandler EqualFold s fs1 lg1 io1 r).server.spaceUsed
            ∧ (uploadHandler EqualFold (withRawLimits s a b) fs1 lg1 io1 r).logFiles
              = (uploadHandler EqualFold s fs1 lg1 io1 r).logFiles := by
  have hinit : (Init s0 _settings _doLogToFile fs io now).1.sizeLimitBytes
        = uint64 (_settings.SizeLimit * 2 ^ 20)
      ∧ (Init s0 _settings _doLogToFile fs io now).1.singleFileSizeLimitBytes
        = uint64 (_settings.SingleFileSizeLimit * 2 ^ 20) := by
    unfold Init
    simp only
    split
    · simp only
      rw [(initializeLogs_limits _ _ _ _).1, (initializeLogs_limits _ _ _ _).2]
      exact ⟨rfl, rfl⟩
    · split <;> rename_i h
      · simp only
        rw [(initializeLogs_limits _ _ _ _).1, (initializeLogs_limits _ _ _ _).2]
        exact ⟨rfl, rfl⟩
      · have h2 := updateUsedSpace_limits _ _ _ _ _ h
        simp only
        rw [h2.1, h2.2, (initializeLogs_limits _ _ _ _).1, (initializeLogs_limits _ _ _ _).2]
        exact ⟨rfl, rfl⟩
  refine ⟨hinit.1, hinit.2, ?_⟩
  intro EqualFold s fs1 lg1 io1 r a b
  rw [uploadHandler_withRawLimits]
  exact ⟨rfl, rfl, rfl, rfl, rfl⟩

/-! ## Read-only mode and the destination folder -/

/-- C4 fails on the code: in read-only mode the notice is written and the handler
goes on; the file is stored, the usage total grows and a second answer is written. -/
theorem readOnly_upload_is_stored :
    readOnlyServer.settings.ReadOnly = true
      ∧ (uploadHandler asciiEqualFold readOnlyServer defaultFs defaultLogs noFaults
          oneByteUpload).response
          = [.body readOnlyMessage, .body "File upload successful."]
      ∧ (uploadHandler asciiEqualFold readOnlyServer defaultFs defaultLogs noFaults
          oneByteUpload).fs
          = [("./logs", []), ("./uploads", [⟨"d.txt", 1⟩])]
      ∧ (uploadHandler asciiEqualFold readOnlyServer defaultFs defaultLogs noFaults
          oneByteUpload).server.spaceUsed = 1 := by
  decide

/-- C5 fails on the code: with `FolderPath = "./data"` an accepted upload is stored
in `./uploads`; the folder `./data`, which the rescan reads, stays empty and the
usage total stays zero. -/
theorem upload_ignores_FolderPath :
    dataServer.settings.FolderPath = "./data"
      ∧ dataFs = [("./uploads", []), ("./logs", []), ("./data", [])]
      ∧ (uploadHandler asciiEqualFold dataServer dataFs defaultLogs noFaults
          oneByteUpload).response
          = [.body "File upload successful."]
      ∧ (uploadHandler asciiEqualFold dataServer dataFs defaultLogs noFaults oneByteUpload).fs
          = [("./uploads", [⟨"d.txt", 1⟩]), ("./logs", []), ("./data", [])]
      ∧ (uploadHandler asciiEqualFold dataServer dataFs defaultLogs noFaults
          oneByteUpload).server.spaceUsed = 0 := by
  decide

/-! ## Logging and the upload folder -/

theorem logEntries_appendLog (lg : LogFiles) (path dir : String) (n : Nat)
    (h : pathKey (splitPath path).1 ≠ pathKey dir) :
    logEntries (appendLog lg path n) dir = logEntries lg dir := by
  induction lg with
  | nil => rfl
  | cons f rest ih =>
    obtain ⟨p, size⟩ := f
    by_cases hp : p = path
    · subst hp
      simp [appendLog, logEntries, h]
    · simp [appendLog, logEntries, hp, ih]

theorem logEntries_fprintln (lg : LogFiles) (io : Faults) (file : Option String)
    (logText dir : String) (h : handleOutside file dir = true) :
    logEntries (fprintln lg io file logText).1 dir = logEntries lg dir := by
  unfold fprintln
  cases file with
  | none => rfl
  | some path =>
    cases io.logWrite with
    | some e => rfl
    | none =>
      simp only [handleOutside, Bool.and_eq_true, bne_iff_ne, ne_eq] at h
      exact logEntries_appendLog lg path dir _ h.2

theorem logEntries_log (s : SimpleFileServer) (lg : LogFiles) (io : Faults)
    (logText dir : String) (h : logsOutside s dir = true) :
    logEntries (log s lg io logText).1 dir = logEntries lg dir := by
  unfold log
  cases hd : s.doLogToFile with
  | false => simp
  | true =>
    simp only [logsOutside, hd, Bool.not_true, Bool.false_or, Bool.and_eq_true] at h
    simp only [if_true]
    rw [logEntries_fprintln _ _ _ _ _ h.2, logEntries_fprintln _ _ _ _ _ h.1]

theorem osReadDir_congr (fs : FileSystem) (lg lg1 : LogFiles) (io : Faults) (dir : String)
    (h : logEntries lg dir = logEntries lg1 dir) :
    osReadDir fs lg io dir = osReadDir fs lg1 io dir := by
  unfold osReadDir
  rw [h]

theorem updateUsedSpace_congr (s : SimpleFileServer) (fs : FileSystem) (lg lg1 : LogFiles)
    (io : Faults) (h : logEntries lg s.settings.FolderPath = logEntries lg1 s.settings.FolderPath) :
    updateUsedSpace s fs lg io = updateUsedSpace s fs lg1 io := by
  unfold updateUsedSpace
  rw [osReadDir_congr fs lg lg1 io _ h]

theorem folderSize_congr (fs : FileSystem) (lg lg1 : LogFiles) (dir : String)
    (h : logEntries lg dir = logEntries lg1 dir) :
    folderSize fs lg dir = folderSize fs lg1 dir := by
  unfold folderSize
  rw [h]

/-! ## The usage total after a successful upload -/

theorem sumSizes_eq (io : Faults) (es : List DirEntry) (u v : Nat)
    (h : sumSizes io es (uint64 u) = .ok v) : v = uint64 (u + (es.map DirEntry.size).sum) := by
  induction es generalizing u with
  | nil =>
    simp only [sumSizes, Except.ok.injEq] at h
    simp [← h]
  | cons e rest ih =>
    simp only [sumSizes, entrySize] at h
    cases hi : io.info with
    | some err => simp [hi] at h
    | none =>
      simp only [hi] at h
      rw [uint64_add_uint64] at h
      have h' := ih (uint64 u + e.size) h
      rw [h']
      simp only [List.map_cons, List.sum_cons, uint64]
      omega

theorem updateUsedSpace_ok (s s1 : SimpleFileServer) (fs : FileSystem) (lg : LogFiles)
    (io : Faults) (h : updateUsedSpace s fs lg io = .ok s1) :
    ∃ total, folderSize fs lg s.settings.FolderPath = some total
      ∧ s1 = { s with spaceUsed := total % 2 ^ 64 } := by
  unfold updateUsedSpace osReadDir at h
  cases hr : io.readDir with
  | some err => simp [hr] at h
  | none =>
    simp only [hr] at h
    cases hl : lookupDir fs s.settings.FolderPath with
    | none => simp [hl] at h
    | some es =>
      simp only [hl] at h
      cases hs : sumSizes io (es ++ logEntries lg s.settings.FolderPath) 0 with
      | error e => simp [hs] at h
      | ok used =>
        simp only [hs, Except.ok.injEq] at h
        have hu : sumSizes io (es ++ logEntries lg s.settings.FolderPath) (uint64 0)
            = .ok used := hs
        have := sumSizes_eq io _ 0 used hu
        refine ⟨((es ++ logEntries lg s.settings.FolderPath).map DirEntry.size).sum,
          by simp [folderSize, hl], ?_⟩
        rw [← h, this]
        simp [uint64]

/-- The log files when the handler rescans the folder: the read-only notice, if
any, and the line of the upload have been logged. -/
theorem logEntries_atRescan (s : SimpleFileServer) (lg : LogFiles) (io : Faults)
    (line dir : String) (h : logsOutside s dir = true) :
    logEntries (log s (if s.settings.ReadOnly = true then log s lg io readOnlyMessage
        else (lg, [])).1 io line).1 dir = logEntries lg dir := by
  rw [logEntries_log _ _ _ _ _ h]
  split
  · exact logEntries_log _ _ _ _ _ h
  · rfl

/-- C6, as stated, fails, in two ways.  When the rescan after the copy fails, the
failure is logged, the answer is still "File upload successful." and `spaceUsed`
keeps its old value, zero, while the folder holds one byte.  When the upload folder
is the log folder, the line "File upload successful." is added to both log files
after the rescan: `spaceUsed` is 90 and the folder holds 138 bytes. -/
theorem usage_after_upload_counterexample :
    ((uploadHandler asciiEqualFold defaultServer defaultFs defaultLogs readDirFails
        oneByteUpload).response = [.body "File upload successful."]
      ∧ folderSize
          (uploadHandler asciiEqualFold defaultServer defaultFs defaultLogs readDirFails
            oneByteUpload).fs
          (uploadHandler asciiEqualFold defaultServer defaultFs defaultLogs readDirFails
            oneByteUpload).logFiles
          defaultServer.settings.FolderPath = some 1
      ∧ (uploadHandler asciiEqualFold defaultServer defaultFs defaultLogs readDirFails
          oneByteUpload).server.spaceUsed = 0)
    ∧ (Init zeroServer logsSettings true [("./uploads", [])] noFaults startTime
        = (logsServer, logsFs, defaultLogs, none)
      ∧ (uploadHandler asciiEqualFold logsServer logsFs defaultLogs noFaults
          emptyUpload).response = [.body "File upload successful."]
      ∧ folderSize
          (uploadHandler asciiEqualFold logsServer logsFs defaultLogs noFaults emptyUpload).fs
          (uploadHandler asciiEqualFold logsServer logsFs defaultLogs noFaults
            emptyUpload).logFiles
          logsServer.settings.FolderPath = some 138
      ∧ (uploadHandler asciiEqualFold logsServer logsFs defaultLogs noFaults
          emptyUpload).server.spaceUsed = 90) := by
  decide

/-- C6, amended: after an upload answered with "File upload successful.", where
the files written by the logger lie outside the folder `settings.FolderPath`
(file logging is off, or the paths show it):
when the rescan of that folder succeeds `spaceUsed` is the sum of the sizes of the
entries directly inside it, reduced modulo `2 ^ 64`; when the rescan fails
`spaceUsed` keeps the value it had before the upload and the line "Failed to
update used space:" with the error is logged. -/
theorem usage_after_upload (EqualFold : String → String → Bool) (s : SimpleFileServer)
    (fs : FileSystem) (lg : LogFiles) (io : Faults) (r : Request)
    (h : ResponseWrite.body "File upload successful."
      ∈ (uploadHandler EqualFold s fs lg io r).response)
    (hlog : logsOutside s s.settings.FolderPath = true) :
    match updateUsedSpace s (uploadHandler EqualFold s fs lg io r).fs
        (uploadHandler EqualFold s fs lg io r).logFiles io with
    | .ok _ =>
      ∃ total, folderSize (uploadHandler EqualFold s fs lg io r).fs
          (uploadHandler EqualFold s fs lg io r).logFiles s.settings.FolderPath = some total
        ∧ (uploadHandler EqualFold s fs lg io r).server.spaceUsed = total % 2 ^ 64
    | .error err =>
      (uploadHandler EqualFold s fs lg io r).server.spaceUsed = s.spaceUsed
        ∧ ("Failed to update used space: " ++ err) ∈ (uploadHandler EqualFold s fs lg io r).log := by
  by_cases hg : r.Method = "GET"
  · simp [uploadHandler, hg] at h
  by_cases hp : r.Method = "POST"
  swap
  · simp [uploadHandler, hg, hp] at h
  cases hf : r.formFile with
  | error e =>
    exfalso
    cases hro : s.settings.ReadOnly <;>
      simp [uploadHandler, hp, hf, hro, readOnlyMessage, failedMessage] at h
  | ok handler =>
  by_cases h1 : uint64 handler.Size > s.singleFileSizeLimitBytes
  · exfalso
    cases hro : s.settings.ReadOnly <;>
      simp [uploadHandler, hp, hf, hro, readOnlyMessage, h1] at h
  by_cases h2 : uint64 (s.spaceUsed + uint64 handler.Size) > s.sizeLimitBytes
  · exfalso
    cases hro : s.settings.ReadOnly <;>
      simp [uploadHandler, hp, hf, hro, readOnlyMessage, h1, h2] at h
  cases hc : osCreate fs io
      (destinationName EqualFold s.settings.ForbiddenExtensions handler.Filename) with
  | error e =>
    exfalso
    cases hro : s.settings.ReadOnly <;>
      simp [uploadHandler, hp, hf, hro, readOnlyMessage, failedMessage, h1, h2, hc] at h
  | ok fs2 =>
  rcases hcp : ioCopy fs2 io
      (destinationName EqualFold s.settings.ForbiddenExtensions handler.Filename)
      handler.Size with ⟨fs3, _ | e⟩
  swap
  · exfalso
    cases hro : s.settings.ReadOnly <;>
      simp [uploadHandler, hp, hf, hro, readOnlyMessage, failedMessage, h1, h2, hc, hcp] at h
  cases hu : updateUsedSpace s fs3
      (log s (if s.settings.ReadOnly = true then log s lg io readOnlyMessage else (lg, [])).1 io
        (uploadingLine r handler)).1 io with
  | error e =>
    have hval : uploadHandler EqualFold s fs lg io r
        = ⟨s, fs3,
            (log s (log s (log s (if s.settings.ReadOnly = true
              then log s lg io readOnlyMessage else (lg, [])).1 io
              (uploadingLine r handler)).1 io ("Failed to update used space: " ++ e)).1 io
              "File upload successful.").1,
            (if s.settings.ReadOnly = true then [ResponseWrite.body readOnlyMessage] else [])
              ++ [ResponseWrite.body "File upload successful."],
            (if s.settings.ReadOnly = true then log s lg io readOnlyMessage else (lg, [])).2
              ++ (log s (if s.settings.ReadOnly = true
                then log s lg io readOnlyMessage else (lg, [])).1 io
                (uploadingLine r handler)).2
              ++ (log s (log s (if s.settings.ReadOnly = true
                then log s lg io readOnlyMessage else (lg, [])).1 io
                (uploadingLine r handler)).1 io ("Failed to update used space: " ++ e)).2
              ++ (log s (log s (log s (if s.settings.ReadOnly = true
                then log s lg io readOnlyMessage else (lg, [])).1 io
                (uploadingLine r handler)).1 io ("Failed to update used space: " ++ e)).1 io
                "File upload successful.").2⟩ := by
      simp [uploadHandler, hp, hf, h1, h2, hc, hcp, hu]
    rw [hval]
    simp only
    have hlg : logEntries
        (log s (log s (log s (if s.settings.ReadOnly = true
          then log s lg io readOnlyMessage else (lg, [])).1 io
          (uploadingLine r handler)).1 io ("Failed to update used space: " ++ e)).1 io
          "File upload successful.").1 s.settings.FolderPath
        = logEntries (log s (if s.settings.ReadOnly = true
          then log s lg io readOnlyMessage else (lg, [])).1 io
          (uploadingLine r handler)).1 s.settings.FolderPath := by
      rw [logEntries_log _ _ _ _ _ hlog, logEntries_log _ _ _ _ _ hlog]
    rw [updateUsedSpace_congr s fs3 _ _ io hlg, hu]
    refine ⟨trivial, ?_⟩
    have hmem : ∀ lg1, ("Failed to update used space: " ++ e)
        ∈ (log s lg1 io ("Failed to update used space: " ++ e)).2 := by
      intro lg1
      unfold log
      split <;> simp
    simp only [List.mem_append]
    exact Or.inl (Or.inr (hmem _))
  | ok s1 =>
    obtain ⟨total, ht, hs1⟩ := updateUsedSpace_ok s s1 fs3 _ io hu
    have hval : uploadHandler EqualFold s fs lg io r
        = ⟨s1, fs3,
            (log s1 (log s (if s.settings.ReadOnly = true
              then log s lg io readOnlyMessage else (lg, [])).1 io
              (uploadingLine r handler)).1 io "File upload successful.").1,
            (if s.settings.ReadOnly = true then [ResponseWrite.body readOnlyMessage] else [])
              ++ [ResponseWrite.body "File upload successful."],
            (if s.settings.ReadOnly = true then log s lg io readOnlyMessage else (lg, [])).2
              ++ (log s (if s.settings.ReadOnly = true
                then log s lg io readOnlyMessage else (lg, [])).1 io
                (uploadingLine r handler)).2
              ++ (log s1 (log s (if s.settings.ReadOnly = true
                then log s lg io readOnlyMessage else (lg, [])).1 io
                (uploadingLine r handler)).1 io "File upload successful.").2⟩ := by
      simp [uploadHandler, hp, hf, h1, h2, hc, hcp, hu]
    have hlog1 : logsOutside s1 s.settings.FolderPath = true := by
      rw [hs1]
      exact hlog
    rw [hval]
    simp only
    have hlg : logEntries
        (log s1 (log s (if s.settings.ReadOnly = true
          then log s lg io readOnlyMessage else (lg, [])).1 io
          (uploadingLine r handler)).1 io "File upload successful.").1 s.settings.FolderPath
        = logEntries (log s (if s.settings.ReadOnly = true
          then log s lg io readOnlyMessage else (lg, [])).1 io
          (uploadingLine r handler)).1 s.settings.FolderPath := by
      rw [logEntries_log _ _ _ _ _ hlog1]
    rw [updateUsedSpace_congr s fs3 _ _ io hlg, hu]
    refine ⟨total, ?_, by rw [hs1]⟩
    rw [folderSize_congr fs3 _ _ _ hlg]
    exact ht

/-- Scenario C of the specification: `.html` is forbidden and `page.html` of
3 KiB is uploaded; it is stored as `page.html.txt` and the usage total grows by 3 KiB. -/
theorem usage_after_upload_witness :
    (uploadHandler asciiEqualFold defaultServer defaultFs defaultLogs noFaults
        ⟨"POST", "10.0.0.7:5123", .ok ⟨"page.html", 3 * 2 ^ 10, by decide⟩⟩).fs
        = [("./logs", []), ("./uploads", [⟨"page.html.txt", 3 * 2 ^ 10⟩])]
      ∧ (uploadHandler asciiEqualFold defaultServer defaultFs defaultLogs noFaults
        ⟨"POST", "10.0.0.7:5123", .ok ⟨"page.html", 3 * 2 ^ 10, by decide⟩⟩).server.spaceUsed
        = 3 * 2 ^ 10
      ∧ ∃ total, folderSize
          (uploadHandler asciiEqualFold defaultServer defaultFs defaultLogs noFaults
            ⟨"POST", "10.0.0.7:5123", .ok ⟨"page.html", 3 * 2 ^ 10, by decide⟩⟩).fs
          (uploadHandler asciiEqualFold defaultServer defaultFs defaultLogs noFaults
            ⟨"POST", "10.0.0.7:5123", .ok ⟨"page.html", 3 * 2 ^ 10, by decide⟩⟩).logFiles
          defaultServer.settings.FolderPath = some total
        ∧ (uploadHandler asciiEqualFold defaultServer defaultFs defaultLogs noFaults
          ⟨"POST", "10.0.0.7:5123", .ok ⟨"page.html", 3 * 2 ^ 10, by decide⟩⟩).server.spaceUsed
          = total % 2 ^ 64 :=
  ⟨by decide, by decide,
    usage_after_upload asciiEqualFold defaultServer defaultFs defaultLogs noFaults
      ⟨"POST", "10.0.0.7:5123", .ok ⟨"page.html", 3 * 2 ^ 10, by decide⟩⟩ (by decide)
      (by decide)⟩

/-! ## The quota invariant -/

theorem lookupDir_congr (fs : FileSystem) (d d1 : String) (h : pathKey d = pathKey d1) :
    lookupDir fs d = lookupDir fs d1 := by
  induction fs with
  | nil => rfl
  | cons p rest ih =>
    obtain ⟨d0, es0⟩ := p
    simp only [lookupDir, h, ih]

theorem logEntries_congr (lg : LogFiles) (d d1 : String) (h : pathKey d = pathKey d1) :
    logEntries lg d = logEntries lg d1 := by
  induction lg with
  | nil => rfl
  | cons f rest ih =>
    obtain ⟨p, size⟩ := f
    simp only [logEntries, h, ih]

theorem lookupDir_replaceDir (fs : FileSystem) (d d1 : String) (es1 : List DirEntry) :
    lookupDir (replaceDir fs d es1) d1
      = if pathKey d1 = pathKey d then (lookupDir fs d).map (fun _ => es1)
        else lookupDir fs d1 := by
  induction fs with
  | nil => simp [replaceDir, lookupDir]
  | cons p rest ih =>
    obtain ⟨d0, es0⟩ := p
    by_cases h0 : pathKey d0 = pathKey d
    · by_cases h1 : pathKey d1 = pathKey d
      · simp [replaceDir, lookupDir, h0, h1]
      · have h1' : ¬ pathKey d = pathKey d1 := fun h => h1 h.symm
        simp [replaceDir, lookupDir, h0, h1, h1']
    · by_cases h1 : pathKey d1 = pathKey d
      · have h0' : ¬ pathKey d0 = pathKey d1 := fun h => h0 (h.trans h1)
        simp [replaceDir, lookupDir, h0, h0', h1, ih]
      · by_cases h2 : pathKey d0 = pathKey d1
        · simp [replaceDir, lookupDir, h0, h1, h2]
        · simp [replaceDir, lookupDir, h0, h1, h2, ih]

theorem sum_setEntry_le (es : List DirEntry) (name : String) (n : Nat) :
    ((setEntry es name n).map DirEntry.size).sum ≤ (es.map DirEntry.size).sum + n := by
  induction es with
  | nil => simp [setEntry]
  | cons e rest ih =>
    by_cases h : e.name = name
    · simp [setEntry, h]
      omega
    · simp [setEntry, h]
      omega

theorem folderSize_writeFile (fs fs1 : FileSystem) (lg : LogFiles) (path dir : String)
    (n t : Nat) (hw : writeFile fs path n = .ok fs1) (ht : folderSize fs lg dir = some t) :
    ∃ t1, folderSize fs1 lg dir = some t1 ∧ t1 ≤ t + n := by
  unfold writeFile at hw
  cases hl : lookupDir fs (splitPath path).1 with
  | none => simp [hl] at hw
  | some es =>
    simp only [hl, Except.ok.injEq] at hw
    subst hw
    unfold folderSize
    rw [lookupDir_replaceDir]
    by_cases hd : pathKey dir = pathKey (splitPath path).1
    · rw [folderSize, lookupDir_congr fs _ _ hd, hl] at ht
      simp only [Option.map, Option.some.injEq] at ht
      refine ⟨((setEntry es (splitPath path).2 n ++ logEntries lg dir).map
        DirEntry.size).sum, by simp [hl, hd], ?_⟩
      rw [← ht]
      have := sum_setEntry_le es (splitPath path).2 n
      simp only [List.map_append, List.sum_append]
      omega
    · refine ⟨t, ?_, by omega⟩
      simp only [hd, if_false]
      exact ht

/-- C7, as stated, fails, in two ways.  With the folder exactly full, the `uint64`
sum in the quota check wraps around to zero, the upload replaces the one-byte file
`c.txt` by 1 MiB, and the rescan leaves `spaceUsed = 2 ^ 64 - 1` above
`sizeLimitBytes = 2 ^ 64 - 2 ^ 20`.  With the log folder as upload folder and a
quota of zero, the line logged before the checks is in both log files at the
rescan, which leaves `spaceUsed = 90` above `sizeLimitBytes = 0`. -/
theorem quota_preserved_counterexample :
    (Init zeroServer maxQuota true fullFs noFaults startTime
        = (fullServer, fullStartFs, defaultLogs, none)
      ∧ folderSize fullStartFs defaultLogs fullServer.settings.FolderPath
          = some fullServer.spaceUsed
      ∧ fullServer.spaceUsed ≤ fullServer.sizeLimitBytes
      ∧ (uploadHandler asciiEqualFold fullServer fullStartFs defaultLogs noFaults
          oneMiBUpload).response = [.body "File upload successful."]
      ∧ (uploadHandler asciiEqualFold fullServer fullStartFs defaultLogs noFaults
          oneMiBUpload).server.spaceUsed = 2 ^ 64 - 1
      ∧ (uploadHandler asciiEqualFold fullServer fullStartFs defaultLogs noFaults
          oneMiBUpload).server.sizeLimitBytes = 2 ^ 64 - 2 ^ 20
      ∧ ¬ (uploadHandler asciiEqualFold fullServer fullStartFs defaultLogs noFaults
            oneMiBUpload).server.spaceUsed
          ≤ (uploadHandler asciiEqualFold fullServer fullStartFs defaultLogs noFaults
              oneMiBUpload).server.sizeLimitBytes)
    ∧ (Init zeroServer logsSettings true [("./uploads", [])] noFaults startTime
        = (logsServer, logsFs, defaultLogs, none)
      ∧ folderSize logsFs defaultLogs logsServer.settings.FolderPath
          = some logsServer.spaceUsed
      ∧ logsServer.spaceUsed ≤ logsServer.sizeLimitBytes
      ∧ (uploadHandler asciiEqualFold logsServer logsFs defaultLogs noFaults
          emptyUpload).server.spaceUsed = 90
      ∧ (uploadHandler asciiEqualFold logsServer logsFs defaultLogs noFaults
          emptyUpload).server.sizeLimitBytes = 0
      ∧ ¬ (uploadHandler asciiEqualFold logsServer logsFs defaultLogs noFaults
            emptyUpload).server.spaceUsed
          ≤ (uploadHandler asciiEqualFold logsServer logsFs defaultLogs noFaults
              emptyUpload).server.sizeLimitBytes) :=
  ⟨by decide, by decide⟩

/-- C7, amended: in the sequential model, when `spaceUsed` is the total size of
the folder `settings.FolderPath`, `spaceUsed <= sizeLimitBytes`, the sum of
`spaceUsed` and the declared size of the upload is below `2 ^ 64`, and the files
written by the logger lie outside that folder (file logging is off, or the paths
show it), the state after the handler still has `spaceUsed <= sizeLimitBytes`,
whatever the request and whether it is accepted or rejected. -/
theorem quota_preserved (EqualFold : String → String → Bool) (s : SimpleFileServer)
    (fs : FileSystem) (lg : LogFiles) (io : Faults) (r : Request)
    (hsync : folderSize fs lg s.settings.FolderPath = some s.spaceUsed)
    (hinv : s.spaceUsed ≤ s.sizeLimitBytes)
    (hnowrap : ∀ handler, r.formFile = .ok handler → s.spaceUsed + handler.Size < 2 ^ 64)
    (hlog : logsOutside s s.settings.FolderPath = true) :
    (uploadHandler EqualFold s fs lg io r).server.spaceUsed
      ≤ (uploadHandler EqualFold s fs lg io r).server.sizeLimitBytes := by
  by_cases hg : r.Method = "GET"
  · simpa [uploadHandler, hg] using hinv
  by_cases hp : r.Method = "POST"
  swap
  · simpa [uploadHandler, hg, hp] using hinv
  cases hf : r.formFile with
  | error e => simpa [uploadHandler, hp, hf] using hinv
  | ok handler =>
  by_cases h1 : uint64 handler.Size > s.singleFileSizeLimitBytes
  · simpa [uploadHandler, hp, hf, h1] using hinv
  by_cases h2 : uint64 (s.spaceUsed + uint64 handler.Size) > s.sizeLimitBytes
  · simpa [uploadHandler, hp, hf, h1, h2] using hinv
  cases hc : osCreate fs io
      (destinationName EqualFold s.settings.ForbiddenExtensions handler.Filename) with
  | error e => simpa [uploadHandler, hp, hf, h1, h2, hc] using hinv
  | ok fs2 =>
  rcases hcp : ioCopy fs2 io
      (destinationName EqualFold s.settings.ForbiddenExtensions handler.Filename)
      handler.Size with ⟨fs3, _ | e⟩
  swap
  · simpa [uploadHandler, hp, hf, h1, h2, hc, hcp] using hinv
  have hR := logEntries_atRescan s lg io (uploadingLine r handler) s.settings.FolderPath hlog
  cases hu : updateUsedSpace s fs3
      (log s (if s.settings.ReadOnly = true then log s lg io readOnlyMessage else (lg, [])).1 io
        (uploadingLine r handler)).1 io with
  | error e => simpa [uploadHandler, hp, hf, h1, h2, hc, hcp, hu] using hinv
  | ok s1 =>
    obtain ⟨total, ht, hs1⟩ := updateUsedSpace_ok s s1 fs3 _ io hu
    rw [folderSize_congr fs3 _ lg _ hR] at ht
    have hw1 : writeFile fs
        (destinationName EqualFold s.settings.ForbiddenExtensions handler.Filename) 0
        = .ok fs2 := by
      unfold osCreate at hc
      cases hio : io.create with
      | some err => simp [hio] at hc
      | none => simpa [hio] using hc
    have hw2 : writeFile fs2
        (destinationName EqualFold s.settings.ForbiddenExtensions handler.Filename)
        handler.Size = .ok fs3 := by
      unfold ioCopy at hcp
      cases hio : io.copy with
      | some p =>
        simp only [hio] at hcp
        split at hcp <;> simp at hcp
      | none =>
        simp only [hio] at hcp
        split at hcp
        · rename_i fs4 hw
          simp only [Prod.mk.injEq, and_true] at hcp
          rw [hw, hcp]
        · simp at hcp
    obtain ⟨t1, ht1, hle1⟩ := folderSize_writeFile _ _ lg _ s.settings.FolderPath _ _ hw1 hsync
    obtain ⟨t2, ht2, hle2⟩ := folderSize_writeFile _ _ lg _ s.settings.FolderPath _ _ hw2 ht1
    rw [ht] at ht2
    cases ht2
    have hnw := hnowrap handler hf
    have h2' := h2
    rw [uint64_Size, uint64_of_lt hnw] at h2'
    have hgoal : (uploadHandler EqualFold s fs lg io r).server = s1 := by
      simp [uploadHandler, hp, hf, h1, h2, hc, hcp, hu]
    rw [hgoal, hs1]
    simp only
    have : total % 2 ^ 64 ≤ total := Nat.mod_le _ _
    omega

/-- An accepted upload into the empty default folder keeps the usage within the quota. -/
theorem quota_preserved_witness :
    (uploadHandler asciiEqualFold defaultServer defaultFs defaultLogs noFaults
        oneMiBUpload).response = [.body "File upload successful."]
      ∧ (uploadHandler asciiEqualFold defaultServer defaultFs defaultLogs noFaults
          oneMiBUpload).server.spaceUsed
        ≤ (uploadHandler asciiEqualFold defaultServer defaultFs defaultLogs noFaults
            oneMiBUpload).server.sizeLimitBytes :=
  ⟨by decide,
    quota_preserved asciiEqualFold defaultServer defaultFs defaultLogs noFaults oneMiBUpload
      (by decide) (by decide) (by intro handler hf; cases hf; decide) (by decide)⟩

/-! ## encoding/json on `Settings` -/

theorem hexVal_digitChar (m : Nat) (h : m < 16) : hexVal (Nat.digitChar m) = some m := by
  interval_cases m <;> decide

theorem unquoteLoop_cons (c : Char) (rest : List Char) :
    unquoteLoop (c :: rest) =
      if c = dquote then some ([], rest)
      else if c = bslash then
        match rest with
        | [] => none
        | e :: rest1 =>
          if e = 'u' then
            match rest1 with
            | h3 :: h2 :: h1 :: h0 :: rest2 =>
              match hexVal h3, hexVal h2, hexVal h1, hexVal h0, unquoteLoop rest2 with
              | some a, some b, some c, some d, some (s, r) =>
                some (runeOf (a * 4096 + b * 256 + c * 16 + d) :: s, r)
              | _, _, _, _, _ => none
            | _ => none
          else
            match unescape e, unquoteLoop rest1 with
            | some ch, some (s, r) => some (ch :: s, r)
            | _, _ => none
      else if c.toNat < 32 then none
      else
        match unquoteLoop rest with
        | some (s, r) => some (c :: s, r)
        | none => none := by
  rw [unquoteLoop.eq_def]

theorem unquoteLoop_short (e ch : Char) (tail : List Char) (he : e ≠ 'u')
    (hu : unescape e = some ch) :
    unquoteLoop (bslash :: e :: tail) = (unquoteLoop tail).map (fun p => (ch :: p.1, p.2)) := by
  have hq : bslash ≠ dquote := by decide
  rw [unquoteLoop_cons]
  simp only [hq, if_false, if_true, he, hu]
  cases unquoteLoop tail <;> rfl

theorem unquoteLoop_hex (a b c d : Nat) (ha : a < 16) (hb : b < 16) (hc : c < 16) (hd : d < 16)
    (tail : List Char) :
    unquoteLoop (bslash :: 'u' :: Nat.digitChar a :: Nat.digitChar b :: Nat.digitChar c
        :: Nat.digitChar d :: tail)
      = (unquoteLoop tail).map
          (fun p => (runeOf (a * 4096 + b * 256 + c * 16 + d) :: p.1, p.2)) := by
  have hq : bslash ≠ dquote := by decide
  rw [unquoteLoop_cons]
  simp only [hq, if_false, if_true, hexVal_digitChar _ ha, hexVal_digitChar _ hb,
    hexVal_digitChar _ hc, hexVal_digitChar _ hd]
  cases unquoteLoop tail <;> rfl

theorem unquoteLoop_escapeChar (c : Char) (tail : List Char) :
    unquoteLoop (escapeChar c ++ tail)
      = (unquoteLoop tail).map (fun p => (c :: p.1, p.2)) := by
  unfold escapeChar
  split_ifs with h1 h2 h3 h4 h5 h6 h7 h8
  · rcases h1 with h1 | h1
    · subst h1
      exact unquoteLoop_short dquote dquote tail (by decide) (by decide)
    · subst h1
      exact unquoteLoop_short bslash bslash tail (by decide) (by decide)
  · subst h2
    exact unquoteLoop_short 'b' _ tail (by decide) (by decide)
  · subst h3
    exact unquoteLoop_short 'f' _ tail (by decide) (by decide)
  · subst h4
    exact unquoteLoop_short 'n' _ tail (by decide) (by decide)
  · subst h5
    exact unquoteLoop_short 'r' _ tail (by decide) (by decide)
  · subst h6
    exact unquoteLoop_short 't' _ tail (by decide) (by decide)
  · have hlt : c.toNat < 128 := by
      rcases h7 with h | h | h | h
      · omega
      · subst h; decide
      · subst h; decide
      · subst h; decide
    have := unquoteLoop_hex 0 0 (c.toNat / 16) (c.toNat % 16) (by omega) (by omega) (by omega)
      (by omega) tail
    have hv : 0 * 4096 + 0 * 256 + c.toNat / 16 * 16 + c.toNat % 16 = c.toNat := by omega
    rw [hv] at this
    have hr : runeOf c.toNat = c := by
      unfold runeOf
      rw [if_neg (by omega)]
      exact Char.ofNat_toNat c
    rw [hr] at this
    exact this
  · rcases h8 with h | h
    · subst h
      exact unquoteLoop_hex 2 0 2 8 (by omega) (by omega) (by omega) (by omega) tail
    · subst h
      exact unquoteLoop_hex 2 0 2 9 (by omega) (by omega) (by omega) (by omega) tail
  · have hq : ¬ c = dquote := fun h => h1 (Or.inl h)
    have hb : ¬ c = bslash := fun h => h1 (Or.inr h)
    have h32 : ¬ c.toNat < 32 := fun h => h7 (Or.inl h)
    rw [List.singleton_append, unquoteLoop_cons]
    simp only [hq, hb, h32, if_false]
    cases unquoteLoop tail <;> rfl

theorem unquoteLoop_escapeRune (g : GoRune) (tail : List Char) :
    unquoteLoop (escapeRune g ++ tail)
      = (unquoteLoop tail).map (fun p => (decodedRune g :: p.1, p.2)) := by
  cases g with
  | rune c => exact unquoteLoop_escapeChar c tail
  | invalid b =>
    exact unquoteLoop_hex 15 15 15 13 (by omega) (by omega) (by omega) (by omega) tail

theorem unquoteLoop_escape (s : GoString) (tail : List Char) :
    unquoteLoop (escape s ++ dquote :: tail) = some (s.map decodedRune, tail) := by
  induction s with
  | nil =>
    rw [escape, List.nil_append, unquoteLoop_cons]
    simp
  | cons c cs ih =>
    rw [escape, List.append_assoc, unquoteLoop_escapeRune, ih]
    rfl

theorem decoded_goText (s : String) : decoded (goText s) = s := by
  unfold decoded goText
  simp [decodedRune, Function.comp_def]

theorem goText_decoded (s : GoString) (h : wellFormed s = true) : goText (decoded s) = s := by
  induction s with
  | nil => rfl
  | cons g gs ih =>
    cases g with
    | rune c =>
      have := ih h
      simp only [goText, decoded, List.map_cons, decodedRune] at this ⊢
      rw [this]
    | invalid b => simp [wellFormed] at h

theorem digitChar_toNat (m : Nat) (h : m < 10) : (Nat.digitChar m).toNat = 48 + m := by
  interval_cases m <;> decide

theorem isDigit_digitChar (m : Nat) (h : m < 10) : isDigit (Nat.digitChar m) = true := by
  interval_cases m <;> decide

theorem readDigits_digitChar (m : Nat) (h : m < 10) (rest : List Char) (acc : Nat) :
    readDigits (Nat.digitChar m :: rest) acc = readDigits rest (10 * acc + m) := by
  rw [readDigits, if_pos (isDigit_digitChar m h), digitChar_toNat m h]
  congr 2
  omega

/-- What `Nat.toDigitsCore` puts in front of the digits it was given. -/
theorem toDigitsCore_spec (fuel n : Nat) (ds : List Char) (h : n < fuel) :
    ∃ c L, Nat.toDigitsCore 10 fuel n ds = (c :: L) ++ ds
      ∧ isDigit c = true
      ∧ (n = 0 → c = '0' ∧ L = [])
      ∧ (n ≠ 0 → c ≠ '0')
      ∧ ∀ rest acc, readDigits ((c :: L) ++ rest) acc
          = readDigits rest (acc * 10 ^ (L.length + 1) + n) := by
  induction fuel generalizing n ds with
  | zero => omega
  | succ fuel ih =>
    rw [Nat.toDigitsCore]
    by_cases h0 : n / 10 = 0
    · rw [if_pos h0]
      have hn : n < 10 := by omega
      refine ⟨Nat.digitChar (n % 10), [], rfl, isDigit_digitChar _ (by omega), ?_, ?_, ?_⟩
      · intro hz
        subst hz
        exact ⟨rfl, rfl⟩
      · intro hz
        have : n % 10 = n := Nat.mod_eq_of_lt hn
        rw [this]
        interval_cases n <;> first | omega | decide
      · intro rest acc
        rw [List.singleton_append, readDigits_digitChar _ (by omega)]
        congr 1
        simp
        omega
    · rw [if_neg h0]
      obtain ⟨c, L, hL, hc, _, hnz, hread⟩ := ih (n / 10) (Nat.digitChar (n % 10) :: ds)
        (by omega)
      refine ⟨c, L ++ [Nat.digitChar (n % 10)], ?_, hc, ?_, ?_, ?_⟩
      · rw [hL]
        simp
      · intro hz
        omega
      · intro _
        exact hnz h0
      · intro rest acc
        have := hread (Nat.digitChar (n % 10) :: rest) acc
        rw [show (c :: (L ++ [Nat.digitChar (n % 10)])) ++ rest
            = (c :: L) ++ (Nat.digitChar (n % 10) :: rest) by simp]
        rw [this, readDigits_digitChar _ (by omega)]
        congr 1
        simp only [List.length_append, List.length_singleton]
        rw [pow_succ (10 : ℕ) (L.length + 1)]
        have := Nat.div_add_mod n 10
        nlinarith

theorem readDigits_stop (rest : List Char) (acc : Nat) (h : headIs isDigit rest = false) :
    readDigits rest acc = (acc, rest) := by
  cases rest with
  | nil => rfl
  | cons d tl =>
    simp only [headIs] at h
    rw [readDigits, h]
    rfl

theorem parseUint64_toDigits (n : Nat) (hn : n < 2 ^ 64) (rest : List Char)
    (hd : headIs isDigit rest = false) (hf : headIs isFraction rest = false) :
    parseUint64 (Nat.toDigits 10 n ++ rest) = some (n, rest) := by
  obtain ⟨c, L, hL, hc, hz, hnz, hread⟩ := toDigitsCore_spec (n + 1) n [] (by omega)
  have hr : readDigits ((c :: L) ++ rest) 0 = (n, rest) := by
    rw [hread, readDigits_stop _ _ hd]
    simp
  rw [Nat.toDigits, hL, List.append_nil]
  unfold parseUint64
  simp only [List.cons_append] at hr ⊢
  rw [hr]
  simp only [hc, Bool.not_true, Bool.false_eq_true, if_false, hf, hn, if_true]
  by_cases h0 : n = 0
  · obtain ⟨h1, h2⟩ := hz h0
    subst h1 h2
    simp [hd]
  · have := hnz h0
    simp [this]

theorem expectLit_null (c : Char) (rest : List Char) (h : c ≠ 'n') :
    expectLit nullLit (c :: rest) = none := by
  rw [nullLit, expectLit, if_neg h]

theorem parseString_quote (s : GoString) (rest : List Char) :
    parseString (quote s ++ rest) = some (decoded s, rest) := by
  unfold quote parseString decoded
  simp only [List.cons_append, List.append_assoc, List.singleton_append, if_true]
  rw [unquoteLoop_escape]
  simp

theorem expectLit_null_quote (s : GoString) (rest : List Char) :
    expectLit nullLit (quote s ++ rest) = none := by
  unfold quote
  exact expectLit_null _ _ (by decide)

theorem parseBool_marshalBool (b : Bool) (rest : List Char) :
    parseBool (marshalBool b ++ rest) = some (b, rest) := by
  cases b
  · simp [marshalBool, parseBool, expectLit, trueLit, falseLit]
  · simp [marshalBool, parseBool, expectLit, trueLit, falseLit]

theorem expectLit_null_marshalBool (b : Bool) (rest : List Char) :
    expectLit nullLit (marshalBool b ++ rest) = none := by
  cases b
  · exact expectLit_null 'f' _ (by decide)
  · exact expectLit_null 't' _ (by decide)

theorem parseElems_marshalElems (xs : List GoString) (fuel : Nat) (rest : List Char)
    (h : xs.length < fuel) :
    parseElems fuel (marshalElems xs ++ rest) = some (xs.map decoded, rest) := by
  induction xs generalizing fuel with
  | nil =>
    obtain ⟨f, rfl⟩ : ∃ f, fuel = f + 1 := ⟨fuel - 1, by omega⟩
    simp [marshalElems, parseElems]
  | cons x xs ih =>
    obtain ⟨f, rfl⟩ : ∃ f, fuel = f + 1 := ⟨fuel - 1, by omega⟩
    have hf : xs.length < f := by simpa using h
    have hc : ¬ (',' : Char) = ']' := by decide
    simp only [marshalElems, List.cons_append, List.append_assoc, parseElems, hc, if_false,
      if_true, parseString_quote, ih f hf, List.map_cons]

theorem length_marshalElems (xs : List GoString) : xs.length < (marshalElems xs).length := by
  induction xs with
  | nil => simp [marshalElems]
  | cons x xs ih =>
    simp only [marshalElems, List.length_cons, List.length_append]
    omega

theorem parseStrings_marshalStrings (x : GoString) (xs : List GoString) (rest : List Char) :
    parseStrings (marshalStrings (some (x :: xs)) ++ rest)
      = some ((x :: xs).map decoded, rest) := by
  have hq : ¬ dquote = ']' := by decide
  have hlen := length_marshalElems xs
  simp only [marshalStrings, List.cons_append, List.append_assoc, parseStrings, if_true]
  have hh : headIs (fun d => decide (d = ']')) (quote x ++ (marshalElems xs ++ rest)) = false := by
    simp [quote, headIs, hq]
  rw [hh]
  simp only [Bool.false_eq_true, if_false, parseString_quote]
  rw [parseElems_marshalElems]
  · rfl
  · simp only [List.length_cons, List.length_append]
    omega

theorem expectLit_null_toDigits (n : Nat) (rest : List Char) :
    expectLit nullLit (Nat.toDigits 10 n ++ rest) = none := by
  obtain ⟨c, L, hL, hc, -, -, -⟩ := toDigitsCore_spec (n + 1) n [] (by omega)
  rw [Nat.toDigits, hL]
  refine expectLit_null c _ ?_
  intro h
  subst h
  exact absurd hc (by decide)

theorem parseMember_FolderPath (s : GoSettings) (v : GoString) (rest : List Char) :
    parseMember "FolderPath" s (quote v ++ rest)
      = some ({ s with FolderPath := goText (decoded v) }, rest) := by
  simp [parseMember, expectLit_null_quote, parseString_quote]

theorem parseMember_SizeLimit (s : GoSettings) (v : Nat) (hv : v < 2 ^ 64) (rest : List Char)
    (hd : headIs isDigit rest = false) (hf : headIs isFraction rest = false) :
    parseMember "SizeLimit" s (Nat.toDigits 10 v ++ rest)
      = some ({ s with SizeLimit := v }, rest) := by
  simp [parseMember, expectLit_null_toDigits, parseUint64_toDigits v hv rest hd hf]

theorem parseMember_SingleFileSizeLimit (s : GoSettings) (v : Nat) (hv : v < 2 ^ 64)
    (rest : List Char) (hd : headIs isDigit rest = false)
    (hf : headIs isFraction rest = false) :
    parseMember "SingleFileSizeLimit" s (Nat.toDigits 10 v ++ rest)
      = some ({ s with SingleFileSizeLimit := v }, rest) := by
  simp [parseMember, expectLit_null_toDigits, parseUint64_toDigits v hv rest hd hf]

theorem parseMember_ReadOnly (s : GoSettings) (v : Bool) (rest : List Char) :
    parseMember "ReadOnly" s (marshalBool v ++ rest) = some ({ s with ReadOnly := v }, rest) := by
  simp [parseMember, expectLit_null_marshalBool, parseBool_marshalBool]

theorem parseMember_ForbiddenExtensions (s : GoSettings) (v : Option (List GoString))
    (rest : List Char) :
    parseMember "ForbiddenExtensions" s (marshalStrings v ++ rest)
      = some ({ s with
          ForbiddenExtensions := (v.map (fun l => l.map (fun x => goText (decoded x)))) },
        rest) := by
  cases v with
  | none =>
    have h1 : expectLit nullLit (nullLit ++ rest) = some rest := by
      simp [nullLit, expectLit]
    simp [parseMember, marshalStrings, h1]
  | some l =>
    cases l with
    | nil =>
      have h1 : expectLit nullLit ('[' :: ']' :: rest) = none :=
        expectLit_null _ _ (by decide)
      simp [parseMember, marshalStrings, h1, parseStrings, headIs]
    | cons x xs =>
      have h1 : expectLit nullLit (marshalStrings (some (x :: xs)) ++ rest) = none :=
        expectLit_null _ _ (by decide)
      have h3 := parseStrings_marshalStrings x xs rest
      simp [parseMember, h1, h3]

theorem headIs_isDigit_comma (rest : List Char) : headIs isDigit (',' :: rest) = false := rfl

theorem headIs_isFraction_comma (rest : List Char) :
    headIs isFraction (',' :: rest) = false := rfl

theorem parseMembers_step (fuel : Nat) (s s1 : GoSettings) (key : String)
    (input rest : List Char) (d : Char) (h : parseMember key s input = some (s1, d :: rest)) :
    parseMembers (fuel + 1) s (quote (goText key) ++ ':' :: input)
      = if d = ',' then parseMembers fuel s1 rest
        else if d = rbrace then some (s1, rest) else none := by
  rw [parseMembers]
  simp only [parseString_quote, decoded_goText, if_true, h]

theorem parseMembers_marshal (s s0 : GoSettings) (fuel : Nat)
    (h1 : s.SizeLimit < 2 ^ 64) (h2 : s.SingleFileSizeLimit < 2 ^ 64) :
    parseMembers (fuel + 5) s0 (marshalChars s).tail = some (s.decoded, []) := by
  have hr : ¬ rbrace = ',' := by decide
  unfold marshalChars
  simp only [List.tail_cons]
  rw [parseMembers_step (fuel + 4) s0 _ _ _ _ _ (parseMember_FolderPath _ _ _), if_pos rfl]
  rw [parseMembers_step (fuel + 3) _ _ _ _ _ _
    (parseMember_SizeLimit _ _ h1 _ (headIs_isDigit_comma _) (headIs_isFraction_comma _)),
    if_pos rfl]
  rw [parseMembers_step (fuel + 2) _ _ _ _ _ _
    (parseMember_SingleFileSizeLimit _ _ h2 _ (headIs_isDigit_comma _)
      (headIs_isFraction_comma _)), if_pos rfl]
  rw [parseMembers_step (fuel + 1) _ _ _ _ _ _ (parseMember_ReadOnly _ _ _), if_pos rfl]
  rw [parseMembers_step fuel _ _ _ _ _ _ (parseMember_ForbiddenExtensions _ _ _),
    if_neg hr, if_pos rfl]
  rfl

/-- What `Unmarshal` reads back from the text of `Marshal`: the record with every
byte outside well-formed UTF-8 replaced by U+FFFD. -/
theorem Unmarshal_Marshal (s s0 : GoSettings)
    (h1 : s.SizeLimit < 2 ^ 64) (h2 : s.SingleFileSizeLimit < 2 ^ 64) :
    Unmarshal (Marshal s) s0 = .ok s.decoded := by
  have hlen : 5 ≤ (marshalChars s).tail.length := by
    simp [marshalChars, quote]
    omega
  obtain ⟨fuel, hfuel⟩ : ∃ fuel, (marshalChars s).tail.length = fuel + 5 :=
    ⟨(marshalChars s).tail.length - 5, by omega⟩
  have hp := parseMembers_marshal s s0 fuel h1 h2
  rw [← hfuel] at hp
  have hne : (marshalChars s).tail ≠ [rbrace] := by
    intro h
    rw [h] at hlen
    simp at hlen
  unfold Unmarshal Marshal
  have hm : marshalChars s = lbrace :: (marshalChars s).tail := rfl
  simp only
  rw [hm]
  simp only [if_true, List.tail_cons] at hne hp ⊢
  rw [if_neg hne, hp]

theorem decoded_of_wellFormed (s : GoSettings) (h : s.wellFormed = true) : s.decoded = s := by
  obtain ⟨fp, a, b, ro, fe⟩ := s
  simp only [GoSettings.wellFormed, Bool.and_eq_true] at h
  have hfp := goText_decoded fp h.1
  have hfe : fe.map (fun l => l.map (fun x => goText (decoded x))) = fe := by
    cases fe with
    | none => rfl
    | some l =>
      have hl : l.all wellFormed = true := h.2
      simp only [Option.map_some', Option.some.injEq]
      rw [List.all_eq_true] at hl
      calc l.map (fun x => goText (decoded x)) = l.map id :=
            List.map_congr_left (fun x hx => goText_decoded x (hl x hx))
        _ = l := List.map_id l
  simp only [GoSettings.decoded, hfp, hfe]

/-! ## Saving and loading the settings -/

theorem Load_Save (s s0 : GoSettings) (store : FileStore) (filename : String)
    (h1 : s.SizeLimit < 2 ^ 64) (h2 : s.SingleFileSizeLimit < 2 ^ 64) :
    Load s0 (Save s store none filename).1 filename = .ok s.decoded := by
  simp [Load, Save, osWriteFile, osReadFile, Unmarshal_Marshal s s0 h1 h2]

/-- C10, as stated, fails: a folder path of the three bytes `a`, `0xff`, `b` is no
well-formed UTF-8; `Save` writes the byte `0xff` as the escape of U+FFFD and `Load`
into a fresh record yields the path `a`, U+FFFD, `b`, another record. -/
theorem Save_Load_roundtrip_counterexample :
    Load zeroSettings (Save badPathSettings (fun _ => none) none "settings.json").1
        "settings.json"
        = .ok { badPathSettings with
                FolderPath := [.rune 'a', .rune (Char.ofNat 65533), .rune 'b'] }
      ∧ { badPathSettings with
          FolderPath := [.rune 'a', .rune (Char.ofNat 65533), .rune 'b'] } ≠ badPathSettings := by
  refine ⟨?_, by decide⟩
  rw [Load_Save badPathSettings zeroSettings _ _ (by decide) (by decide)]
  rfl

/-- C10, amended: for every settings record `s` whose strings are well-formed
UTF-8 (its two limits being `uint64` values), when the file can be written, `Save`
returns no error and `Load` into any record, a fresh one in particular, then
yields `s`; saving the record that was loaded and loading it a second time yields
`s` again. -/
theorem Save_Load_roundtrip (s fresh : GoSettings) (store : FileStore) (filename : String)
    (h1 : s.SizeLimit < 2 ^ 64) (h2 : s.SingleFileSizeLimit < 2 ^ 64)
    (hw : s.wellFormed = true) :
    (Save s store none filename).2 = none
      ∧ Load fresh (Save s store none filename).1 filename = .ok s
      ∧ ∀ s1, Load fresh (Save s store none filename).1 filename = .ok s1 →
          (Save s1 (Save s store none filename).1 none filename).2 = none
          ∧ Load fresh (Save s1 (Save s store none filename).1 none filename).1 filename
              = .ok s := by
  have hl : ∀ st, Load fresh (Save s st none filename).1 filename = .ok s := by
    intro st
    rw [Load_Save s fresh st filename h1 h2, decoded_of_wellFormed s hw]
  refine ⟨rfl, hl store, ?_⟩
  intro s1 hs1
  rw [hl store] at hs1
  cases hs1
  exact ⟨rfl, hl _⟩

/-- The default settings, saved to `settings.json` where there was no file and
loaded into the zero record. -/
theorem Save_Load_roundtrip_witness :
    Load zeroSettings (Save (toGo DefaultSettings) (fun _ => none) none "settings.json").1
      "settings.json" = .ok (toGo DefaultSettings) :=
  (Save_Load_roundtrip (toGo DefaultSettings) zeroSettings (fun _ => none) "settings.json"
    (by decide) (by decide) (by decide)).2.1

end SFS
